import Mathlib

/-!
Verification of the BAC.EVENTS extraction-and-enrichment pipeline.

This file gives a shallow embedding of the core logic of the repository:

* `CampusEventScraper._clean`, `_parse_date`, `_parse_time` and the two
  scraper insert loops from `utils/event_scraper.py`;
* `CampusEventScraper.scrape_weather` from `utils/event_scraper.py`;
* `WeatherAPI._weather_text_from_code`, `_format_date`,
  `fetch_weather_for_date` and `fetch_and_store_for_events` from
  `utils/api.py`.

HTTP and database effects are modelled by explicit oracles and state
passing: an oracle `String → HttpOutcome` stands for the Open-Meteo
endpoint (constructors distinguish a raised network error, a non-2xx
response raised by `raise_for_status`, a body that is not JSON, and a
parsed JSON body), database tables are lists of rows, and Python
exceptions are `Except`.  The Python regexes are modelled by explicit
position-by-position scanners mirroring `re.search` left-to-right
semantics (including the effective backtracking behaviour of the
`\d{1,2}` groups, which is analysed in comments at each matcher).
-/

set_option autoImplicit false

namespace BACEvents

/-! ## Character helpers

`\s` in a Python `str` regex matches `[ \t\n\r\v\f]` (plus further
unicode whitespace; the model covers the ASCII whitespace set, which is
also the set relevant to all concrete inputs appearing in the claims).
`\d` is modelled as the ASCII digits `[0-9]`. -/

/-- The ASCII whitespace characters matched by Python's `\s` (and stripped
by `str.strip`). -/
def isPySpace (c : Char) : Bool :=
  decide (c = ' ' ∨ c = '\t' ∨ c = '\n' ∨ c = '\r' ∨ c = '\x0B' ∨ c = '\x0C')

/-- ASCII digit test, Python's `\d`. -/
def isDigitChar (c : Char) : Bool :=
  decide (48 ≤ c.toNat ∧ c.toNat ≤ 57)

/-- Numeric value of an ASCII digit character. -/
def digitVal (c : Char) : Nat := c.toNat - 48

/-- Decimal value of a digit string, as Python's `int`. -/
def natOfDigits (l : List Char) : Nat :=
  l.foldl (fun a c => a * 10 + digitVal c) 0

/-- The digit character for `n < 10`. -/
def digitChar (n : Nat) : Char := Char.ofNat (48 + n)

/-! ## Text Normalizer: `CampusEventScraper._clean`

Source (`utils/event_scraper.py`):
```
if not txt:
    return ''
return re.sub(r'\s+', ' ', txt).strip()
```
`re.sub(r'\s+', ' ', txt)` replaces every maximal run of whitespace by a
single space; `.strip()` then removes leading and trailing whitespace. -/

/-- `re.sub(r'\s+', ' ', ·)` on a character list.  The boolean argument
records whether the previous character belonged to a whitespace run
(in which case further whitespace of the same run is dropped). -/
def collapseWS : Bool → List Char → List Char
  | _, [] => []
  | prevWS, c :: cs =>
    if isPySpace c then
      if prevWS then collapseWS true cs
      else ' ' :: collapseWS true cs
    else c :: collapseWS false cs

/-- Remove trailing whitespace characters. -/
def dropTrailWS : List Char → List Char
  | [] => []
  | c :: cs =>
    match dropTrailWS cs with
    | [] => if isPySpace c then [] else [c]
    | r => c :: r

/-- Python `str.strip()`: drop leading and trailing whitespace. -/
def stripChars (cs : List Char) : List Char :=
  dropTrailWS (cs.dropWhile isPySpace)

/-- `CampusEventScraper._clean` on a (non-null) string. -/
def clean (s : String) : String :=
  if s = "" then ""
  else String.mk (stripChars (collapseWS false s.toList))

/-- `CampusEventScraper._clean` including the null case: `if not txt`
catches both `None` and the empty string. -/
def cleanOpt : Option String → String
  | none => ""
  | some s => clean s

/-! ## Weather code classifier: `WeatherAPI._weather_text_from_code`

Source (`utils/api.py`), an ordered chain of early returns:
```
code = int(code)
if code == 0: return "Clear"
if code in [1,2,3]: return "Partly Cloudy"
if 45 <= code <= 48: return "Fog"
if 51 <= code <= 67: return "Rain"
if 71 <= code <= 77: return "Snow/Ice"
if 80 <= code <= 82: return "Rain Showers"
if 95 <= code: return "Thunderstorm"
return "Unknown"
```
-/

/-- `WeatherAPI._weather_text_from_code` (the argument is the integer
weather code; `int(code)` is the identity on integers). -/
def weather_text_from_code (code : Int) : String :=
  if code = 0 then "Clear"
  else if code ∈ ([1, 2, 3] : List Int) then "Partly Cloudy"
  else if 45 ≤ code ∧ code ≤ 48 then "Fog"
  else if 51 ≤ code ∧ code ≤ 67 then "Rain"
  else if 71 ≤ code ∧ code ≤ 77 then "Snow/Ice"
  else if 80 ≤ code ∧ code ≤ 82 then "Rain Showers"
  else if 95 ≤ code then "Thunderstorm"
  else "Unknown"

/-- The classification table exactly as the specification words it
(claim C3): first matching rule of the ordered table wins, all ranges
inclusive.  Written from the spec's words, to be compared with the
source-derived `weather_text_from_code`. -/
def weather_text_spec (code : Int) : String :=
  if code = 0 then "Clear"
  else if 1 ≤ code ∧ code ≤ 3 then "Partly Cloudy"
  else if 45 ≤ code ∧ code ≤ 48 then "Fog"
  else if 51 ≤ code ∧ code ≤ 67 then "Rain"
  else if 71 ≤ code ∧ code ≤ 77 then "Snow/Ice"
  else if 80 ≤ code ∧ code ≤ 82 then "Rain Showers"
  else if 95 ≤ code then "Thunderstorm"
  else "Unknown"

/-! ## Time Extractor: `CampusEventScraper._parse_time`

Source (`utils/event_scraper.py`):
```
m = re.search(r'(\d{1,2}:\d{2}\s*(?:am|pm))\s*-\s*(\d{1,2}:\d{2}\s*(?:am|pm))', text, re.I)
if m: return f"{m.group(1)} - {m.group(2)}"
m2 = re.search(r'(\d{1,2}:\d{2}\s*(?:am|pm))', text, re.I)
if m2: return m2.group(1)
return ''
```
The token `\d{1,2}:\d{2}\s*(?:am|pm)` is matched at a fixed position
deterministically: the greedy `\d{1,2}` is forced by the following `:`
(if two digits are present the one-digit alternative would require the
second digit to be a colon, which is impossible), the greedy `\s*` is
forced by the following letter, and the `am|pm` alternation is decided
by its first character.  `re.search` takes the leftmost position at
which the whole pattern matches. -/

/-- Match `\d{1,2}:\d{2}\s*(?:am|pm)` (case-insensitive meridiem) at the
head of the list; return the verbatim matched characters and the rest. -/
def matchTimeTokenAt (cs : List Char) : Option (List Char × List Char) :=
  let hourPart : Option (List Char × List Char) :=
    match cs with
    | c1 :: c2 :: c3 :: rest =>
      if isDigitChar c1 && isDigitChar c2 && c3 = ':' then some ([c1, c2, c3], rest)
      else if isDigitChar c1 && c2 = ':' then some ([c1, c2], c3 :: rest)
      else none
    | _ => none
  match hourPart with
  | none => none
  | some (pre, rest1) =>
    match rest1 with
    | m1 :: m2 :: rest2 =>
      if isDigitChar m1 && isDigitChar m2 then
        let ws := rest2.takeWhile isPySpace
        let rest3 := rest2.dropWhile isPySpace
        match rest3 with
        | a :: m :: rest4 =>
          if (a = 'a' ∨ a = 'A' ∨ a = 'p' ∨ a = 'P') ∧ (m = 'm' ∨ m = 'M') then
            some (pre ++ [m1, m2] ++ ws ++ [a, m], rest4)
          else none
        | _ => none
      else none
    | _ => none

/-- Match the full range pattern
`(token)\s*-\s*(token)` at the head of the list, returning the two
captured groups. -/
def matchTimeRangeAt (cs : List Char) : Option (List Char × List Char) :=
  match matchTimeTokenAt cs with
  | none => none
  | some (g1, r1) =>
    match r1.dropWhile isPySpace with
    | '-' :: r3 =>
      match matchTimeTokenAt (r3.dropWhile isPySpace) with
      | none => none
      | some (g2, _) => some (g1, g2)
    | _ => none

/-- `re.search` for the range pattern: leftmost matching position. -/
def searchTimeRange : List Char → Option (List Char × List Char)
  | [] => none
  | c :: cs =>
    match matchTimeRangeAt (c :: cs) with
    | some r => some r
    | none => searchTimeRange cs

/-- `re.search` for a single time token: leftmost matching position. -/
def searchTimeToken : List Char → Option (List Char)
  | [] => none
  | c :: cs =>
    match matchTimeTokenAt (c :: cs) with
    | some (g, _) => some g
    | none => searchTimeToken cs

/-- `CampusEventScraper._parse_time`. -/
def parse_time (text : String) : String :=
  match searchTimeRange text.toList with
  | some (g1, g2) => String.mk g1 ++ " - " ++ String.mk g2
  | none =>
    match searchTimeToken text.toList with
    | some g => String.mk g
    | none => ""

/-- The Time Extractor exactly as claim C6 words it: a range of two
`H:MM am|pm` tokens separated by a dash yields `"<start> - <end>"`,
else the first single token verbatim, else the empty string.  Written
from the claim's words, to be compared with the source-derived
`parse_time`. -/
def parse_time_claim (text : String) : String :=
  match searchTimeRange text.toList with
  | some (startTok, endTok) => String.mk startTok ++ " - " ++ String.mk endTok
  | none =>
    match searchTimeToken text.toList with
    | some tok => String.mk tok
    | none => ""

/-! ## Calendar arithmetic

`datetime` uses the proleptic Gregorian calendar with years 1–9999. -/

/-- Gregorian leap year rule, as `datetime`. -/
def isLeapYear (y : Nat) : Bool :=
  y % 4 = 0 && (y % 100 ≠ 0 || y % 400 = 0)

/-- Days in a month, as `datetime`. -/
def daysInMonth (y m : Nat) : Nat :=
  if m = 2 then (if isLeapYear y then 29 else 28)
  else if m = 4 ∨ m = 6 ∨ m = 9 ∨ m = 11 then 30
  else 31

/-- `strftime("%Y-%m-%d")`: zero-padded 4-digit year, 2-digit month and
day.  (All years produced by the parsers below lie in 1–9999; the model
uses the zero-padded rendering of `%Y` throughout.) -/
def toYMD (y m d : Nat) : String :=
  String.mk ([digitChar (y / 1000 % 10), digitChar (y / 100 % 10),
              digitChar (y / 10 % 10), digitChar (y % 10), '-',
              digitChar (m / 10 % 10), digitChar (m % 10), '-',
              digitChar (d / 10 % 10), digitChar (d % 10)])

/-! ## Date Extractor: `CampusEventScraper._parse_date`

Source (`utils/event_scraper.py`):
```
m = re.search(rf'{MONTHS}\s+(\d{1,2})(?:,\s*(\d{4}))?', text)
if m:
    month_name = m.group(1); day = int(m.group(2))
    year = int(m.group(3)) if m.group(3) else (default_year or datetime.now().year)
    try:
        dt = datetime.strptime(f"{month_name} {day} {year}", "%B %d %Y")
        return dt.strftime("%Y-%m-%d")
    except Exception:
        return None
m2 = re.search(r'(\d{1,2})/(\d{1,2})/(\d{4})', text)
if m2:
    month, day, year = int(m2.group(1)), int(m2.group(2)), int(m2.group(3))
    try:
        dt = datetime(year, month, day)
        return dt.strftime("%Y-%m-%d")
    except:
        return None
return None
```
with `MONTHS` the alternation of the twelve fully spelled month names.

Notes on the regex semantics encoded here:
* no month name is a prefix of another, so at a fixed position at most
  one alternative of `MONTHS` matches;
* the greedy `(\d{1,2})` day group takes two digits when two are
  available, else one; nothing after it can force backtracking (the
  optional year group may match empty);
* the optional group `(?:,\s*(\d{4}))?` matches (consuming input) only
  when a comma, optional whitespace and at least four digits follow,
  and then captures exactly the first four digits;
* in the second pattern each greedy `(\d{1,2})` is followed by `/`, so
  a two-digit match cannot be traded for a one-digit match by
  backtracking (the second digit would have to equal `/`);
* `strptime(f"{month} {day} {year}", "%B %d %Y")` fails unless the
  rendered year has exactly four digits (`%Y` matches `\d{4}`), the
  rendered day is matched by `%d` (values 1–31), and the triple forms a
  real calendar date; `datetime(year, month, day)` fails unless
  `1 ≤ year ≤ 9999`, `1 ≤ month ≤ 12` and `1 ≤ day ≤ daysInMonth`. -/

/-- The twelve month names with their numbers, in the alternation order
of `MONTHS`. -/
def monthTable : List (List Char × Nat) :=
  [("January".toList, 1), ("February".toList, 2), ("March".toList, 3),
   ("April".toList, 4), ("May".toList, 5), ("June".toList, 6),
   ("July".toList, 7), ("August".toList, 8), ("September".toList, 9),
   ("October".toList, 10), ("November".toList, 11), ("December".toList, 12)]

/-- If `p` is a prefix of `cs`, return the remainder. -/
def dropPrefixQ : List Char → List Char → Option (List Char)
  | [], rest => some rest
  | _ :: _, [] => none
  | p :: ps, c :: cs => if p = c then dropPrefixQ ps cs else none

/-- Try the month alternatives in order at the head of the list. -/
def findMonth : List (List Char × Nat) → List Char → Option (Nat × List Char)
  | [], _ => none
  | (name, n) :: tbl, cs =>
    match dropPrefixQ name cs with
    | some rest => some (n, rest)
    | none => findMonth tbl cs

/-- Match `\s+(\d{1,2})(?:,\s*(\d{4}))?` — the part of the first date
pattern after the month name; return day value and optional year
value. -/
def matchDayYearAt (r1 : List Char) : Option (Nat × Option Nat) :=
  match r1 with
  | c :: r2 =>
    if isPySpace c then
      let r3 := r2.dropWhile isPySpace
      let dayChars := (r3.takeWhile isDigitChar).take 2
      if dayChars = [] then none
      else
        let r4 := r3.drop dayChars.length
        let yearOpt : Option Nat :=
          match r4 with
          | ',' :: r5 =>
            let r6 := r5.dropWhile isPySpace
            let ys := r6.takeWhile isDigitChar
            if 4 ≤ ys.length then some (natOfDigits (ys.take 4)) else none
          | _ => none
        some (natOfDigits dayChars, yearOpt)
    else none
  | [] => none

/-- Match `MONTHS\s+(\d{1,2})(?:,\s*(\d{4}))?` at the head of the list;
return month number, day value and optional year value
(`matchDayYearAt` handles the part after the month name). -/
def matchDateP1At (cs : List Char) : Option (Nat × Nat × Option Nat) :=
  match findMonth monthTable cs with
  | none => none
  | some (mo, r1) =>
    match matchDayYearAt r1 with
    | none => none
    | some (day, yOpt) => some (mo, day, yOpt)

/-- `re.search` for the first pattern: leftmost matching position. -/
def searchDateP1 : List Char → Option (Nat × Nat × Option Nat)
  | [] => none
  | c :: cs =>
    match matchDateP1At (c :: cs) with
    | some r => some r
    | none => searchDateP1 cs

/-- Match `(\d{1,2})/(\d{1,2})/(\d{4})` at the head of the list; return
month, day and year values. -/
def matchDateP2At (cs : List Char) : Option (Nat × Nat × Nat) :=
  let ms := (cs.takeWhile isDigitChar).take 2
  if ms = [] then none
  else
    match cs.drop ms.length with
    | '/' :: r1 =>
      let ds := (r1.takeWhile isDigitChar).take 2
      if ds = [] then none
      else
        match r1.drop ds.length with
        | '/' :: r2 =>
          let ys := r2.takeWhile isDigitChar
          if 4 ≤ ys.length then
            some (natOfDigits ms, natOfDigits ds, natOfDigits (ys.take 4))
          else none
        | _ => none
    | _ => none

/-- `re.search` for the second pattern: leftmost matching position. -/
def searchDateP2 : List Char → Option (Nat × Nat × Nat)
  | [] => none
  | c :: cs =>
    match matchDateP2At (c :: cs) with
    | some r => some r
    | none => searchDateP2 cs

/-- `CampusEventScraper._parse_date`.  `nowYear` stands for
`datetime.now().year` at call time; `default_year` is the optional
`default_year` argument.  The year resolution mirrors Python's
`default_year or datetime.now().year` (a `0` is falsy and falls back to
the current year).  The first pattern's validity condition
`1000 ≤ y ≤ 9999` reflects `strptime`'s `%Y`, which must match the
rendered year as exactly four digits. -/
def parse_date (nowYear : Int) (text : String) (default_year : Option Int) : Option String :=
  match searchDateP1 text.toList with
  | some (mo, day, yOpt) =>
    let y : Int :=
      match yOpt with
      | some yr => (yr : Int)
      | none =>
        match default_year with
        | some dy => if dy = 0 then nowYear else dy
        | none => nowYear
    if 1000 ≤ y ∧ y ≤ 9999 ∧ 1 ≤ day ∧ day ≤ daysInMonth y.toNat mo then
      some (toYMD y.toNat mo day)
    else none
  | none =>
    match searchDateP2 text.toList with
    | some (mo, day, yr) =>
      if 1 ≤ mo ∧ mo ≤ 12 ∧ 1 ≤ day ∧ day ≤ daysInMonth yr mo ∧ 1 ≤ yr then
        some (toYMD yr mo day)
      else none
    | none => none

/-- The Date Extractor exactly as claim C5 words it: try the
`MonthName Day[, Year]` pattern first, substituting the fallback year
(else the current year) when the year is omitted; if that pattern
matches but the resolved month/day/year is not a valid calendar date,
return null without falling back; otherwise resolve the first
`MM/DD/YYYY` substring (null if invalid); else null.  Written from the
claim's words (calendar validity only, fallback year used whenever
given), to be compared with the source-derived `parse_date`. -/
def parse_date_claim (nowYear : Int) (text : String) (default_year : Option Int) : Option String :=
  match searchDateP1 text.toList with
  | some (mo, day, yOpt) =>
    let y : Int :=
      match yOpt with
      | some yr => (yr : Int)
      | none =>
        match default_year with
        | some dy => dy
        | none => nowYear
    if 1 ≤ y ∧ y ≤ 9999 ∧ 1 ≤ day ∧ day ≤ daysInMonth y.toNat mo then
      some (toYMD y.toNat mo day)
    else none
  | none =>
    match searchDateP2 text.toList with
    | some (mo, day, yr) =>
      if 1 ≤ mo ∧ mo ≤ 12 ∧ 1 ≤ day ∧ day ≤ daysInMonth yr mo ∧ 1 ≤ yr then
        some (toYMD yr mo day)
      else none
    | none => none

/-- Claim C5 amended: like `parse_date_claim`, but a fallback year of
`0` is falsy in `default_year or datetime.now().year` and is replaced
by the current year, and the first pattern additionally requires the
resolved year to render as exactly four digits (`1000 ≤ y ≤ 9999`),
because the rebuilt string is re-parsed through `strptime`'s `%Y`. -/
def parse_date_amended (nowYear : Int) (text : String) (default_year : Option Int) : Option String :=
  match searchDateP1 text.toList with
  | some (mo, day, yOpt) =>
    let y : Int :=
      match yOpt with
      | some yr => (yr : Int)
      | none =>
        match default_year with
        | some dy => if dy = 0 then nowYear else dy
        | none => nowYear
    if 1000 ≤ y ∧ y ≤ 9999 ∧ 1 ≤ day ∧ day ≤ daysInMonth y.toNat mo then
      some (toYMD y.toNat mo day)
    else none
  | none =>
    match searchDateP2 text.toList with
    | some (mo, day, yr) =>
      if 1 ≤ mo ∧ mo ≤ 12 ∧ 1 ≤ day ∧ day ≤ daysInMonth yr mo ∧ 1 ≤ yr then
        some (toYMD yr mo day)
      else none
    | none => none

/-! ## Date-string validation: `WeatherAPI._format_date`

Source (`utils/api.py`):
```
if not iso_date: return None
try:
    datetime.strptime(iso_date, "%Y-%m-%d"); return iso_date
except:
    try:
        dt = datetime.fromisoformat(iso_date); return dt.strftime("%Y-%m-%d")
    except:
        return None
```
`strptime`'s `%Y` matches exactly four digits, while `%m` and `%d`
accept one or two digits (CPython `_strptime` patterns `1[0-2]|0[1-9]|[1-9]`
and `3[01]|[12]\d|0[1-9]|[1-9]`); the whole string must be consumed and
the triple must form a real calendar date with year at least 1. -/

/-- `%m` followed by the literal `-` of the format, with the regex
alternation's backtracking (two-digit month first, then one-digit). -/
def matchMonthDash (cs : List Char) : Option (Nat × List Char) :=
  (match cs with
   | a :: b :: s :: rest =>
     if s = '-' ∧ isDigitChar a ∧ isDigitChar b
        ∧ 1 ≤ natOfDigits [a, b] ∧ natOfDigits [a, b] ≤ 12 then
       some (natOfDigits [a, b], rest)
     else none
   | _ => none) <|>
  (match cs with
   | a :: s :: rest =>
     if s = '-' ∧ isDigitChar a ∧ 1 ≤ digitVal a ∧ digitVal a ≤ 9 then
       some (digitVal a, rest)
     else none
   | _ => none)

/-- `%d` at the end of the input: one or two digits with value 1–31,
and nothing may remain after them. -/
def matchDayEnd (cs : List Char) : Option Nat :=
  match cs with
  | [a, b] =>
    if isDigitChar a ∧ isDigitChar b
       ∧ 1 ≤ natOfDigits [a, b] ∧ natOfDigits [a, b] ≤ 31 then
      some (natOfDigits [a, b])
    else none
  | [a] =>
    if isDigitChar a ∧ 1 ≤ digitVal a ∧ digitVal a ≤ 9 then
      some (digitVal a)
    else none
  | _ => none

/-- `datetime.strptime(s, "%Y-%m-%d")`: the parsed triple, or `none` on
`ValueError`. -/
def parseStrptimeYMD (cs : List Char) : Option (Nat × Nat × Nat) :=
  match cs with
  | a :: b :: c :: d :: s :: rest =>
    if s = '-' ∧ isDigitChar a ∧ isDigitChar b ∧ isDigitChar c ∧ isDigitChar d then
      let y := natOfDigits [a, b, c, d]
      match matchMonthDash rest with
      | none => none
      | some (m, rest2) =>
        match matchDayEnd rest2 with
        | none => none
        | some dd =>
          if 1 ≤ y ∧ 1 ≤ dd ∧ dd ≤ daysInMonth y m then some (y, m, dd) else none
    else none
  | _ => none

/-- A canonical ISO `YYYY-MM-DD` calendar date: exactly ten characters,
zero-padded fields, real calendar date with year at least 1.  This is
the shape produced by `strftime("%Y-%m-%d")` for the years the parsers
can produce, and the spec's notion of "valid ISO date". -/
def parseCanonicalYMD (cs : List Char) : Option (Nat × Nat × Nat) :=
  match cs with
  | [y1, y2, y3, y4, s1, m1, m2, s2, d1, d2] =>
    if s1 = '-' ∧ s2 = '-' ∧ isDigitChar y1 ∧ isDigitChar y2 ∧ isDigitChar y3
       ∧ isDigitChar y4 ∧ isDigitChar m1 ∧ isDigitChar m2 ∧ isDigitChar d1
       ∧ isDigitChar d2 then
      let y := natOfDigits [y1, y2, y3, y4]
      let m := natOfDigits [m1, m2]
      let d := natOfDigits [d1, d2]
      if 1 ≤ y ∧ 1 ≤ m ∧ m ≤ 12 ∧ 1 ≤ d ∧ d ≤ daysInMonth y m then some (y, m, d)
      else none
    else none
  | _ => none

/-- Valid canonical ISO date test. -/
def isValidYMD (s : String) : Bool := (parseCanonicalYMD s.toList).isSome

/-- `HH:MM[:SS[.fff[fff]]]` time suffix accepted by
`datetime.fromisoformat` after the separator character. -/
def isIsoTimePart (cs : List Char) : Bool :=
  match cs with
  | [h1, h2, ':', m1, m2] =>
    isDigitChar h1 && isDigitChar h2 && isDigitChar m1 && isDigitChar m2
      && decide (natOfDigits [h1, h2] ≤ 23 ∧ natOfDigits [m1, m2] ≤ 59)
  | [h1, h2, ':', m1, m2, ':', s1, s2] =>
    isDigitChar h1 && isDigitChar h2 && isDigitChar m1 && isDigitChar m2
      && isDigitChar s1 && isDigitChar s2
      && decide (natOfDigits [h1, h2] ≤ 23 ∧ natOfDigits [m1, m2] ≤ 59
                 ∧ natOfDigits [s1, s2] ≤ 59)
  | h1 :: h2 :: ':' :: m1 :: m2 :: ':' :: s1 :: s2 :: '.' :: frac =>
    isDigitChar h1 && isDigitChar h2 && isDigitChar m1 && isDigitChar m2
      && isDigitChar s1 && isDigitChar s2
      && decide (natOfDigits [h1, h2] ≤ 23 ∧ natOfDigits [m1, m2] ≤ 59
                 ∧ natOfDigits [s1, s2] ≤ 59)
      && (frac.length = 3 || frac.length = 6) && frac.all isDigitChar
  | _ => false

/-- `datetime.fromisoformat(s).strftime("%Y-%m-%d")`: a canonical
`YYYY-MM-DD` date, optionally followed by a single separator character
and a time-of-day part; the result is the date part. -/
def fromisoDate (s : String) : Option String :=
  let cs := s.toList
  match parseCanonicalYMD (cs.take 10) with
  | none => none
  | some (y, m, d) =>
    match cs.drop 10 with
    | [] => some (toYMD y m d)
    | _ :: t => if isIsoTimePart t then some (toYMD y m d) else none

/-- `WeatherAPI._format_date`. -/
def format_date (s : String) : Option String :=
  if s = "" then none
  else if (parseStrptimeYMD s.toList).isSome then some s
  else fromisoDate s

/-! ## Weather fetch and store: `WeatherAPI.fetch_weather_for_date` and
`WeatherAPI.fetch_and_store_for_events`

The Open-Meteo endpoint is modelled by an oracle from the requested
date to an `HttpOutcome`.  In `fetch_weather_for_date`,
`requests.get` (network error or timeout), `resp.raise_for_status()`
(non-2xx status) and `resp.json()` (body not JSON) all raise *outside*
the `try` block, so those three outcomes propagate to the caller;
only the field extraction `data['daily'][...][0]` is guarded, and a
missing key or empty list is caught and turned into `None`. -/

/-- The `daily` block of an Open-Meteo response body.  Temperatures are
kept as integers: no claim depends on their numeric type, only on their
propagation. -/
structure DailyBlock where
  temperature_2m_max : List Int
  temperature_2m_min : List Int
  weathercode : List Int
deriving DecidableEq, Repr

/-- A parsed JSON response body: the `daily` key may be absent. -/
structure ForecastJson where
  daily : Option DailyBlock
deriving DecidableEq, Repr

/-- Outcome of one outbound forecast request. -/
inductive HttpOutcome where
  /-- `requests.get` raises (network failure or timeout). -/
  | netError : HttpOutcome
  /-- `resp.raise_for_status()` raises (non-2xx response). -/
  | httpError : HttpOutcome
  /-- `resp.json()` raises (body is not JSON). -/
  | jsonError : HttpOutcome
  /-- A parsed JSON body. -/
  | ok : ForecastJson → HttpOutcome
deriving DecidableEq, Repr

/-- Whether the outcome raises no exception. -/
def noRaise : HttpOutcome → Bool
  | HttpOutcome.ok _ => true
  | _ => false

/-- The first element of each `daily` list, when all are present:
`data['daily']['temperature_2m_max'][0]` and friends. -/
def firstDaily (b : ForecastJson) : Option (Int × Int × Int) :=
  match b.daily with
  | none => none
  | some d =>
    match d.temperature_2m_max.head?, d.temperature_2m_min.head?, d.weathercode.head? with
    | some tmax, some tmin, some code => some (tmax, tmin, code)
    | _, _, _ => none

/-- The parsed dict returned by `fetch_weather_for_date` on success. -/
structure WeatherResult where
  temp_max : Int
  temp_min : Int
  weather_code : Int
  weather_text : String
  raw : ForecastJson
deriving DecidableEq, Repr

/-- `WeatherAPI.fetch_weather_for_date`: `Except.error` models an
uncaught exception reaching the caller, `Except.ok none` the caught
parsing failure, `Except.ok (some r)` success. -/
def fetch_weather_for_date (oracle : String → HttpOutcome) (date_iso : String) :
    Except Unit (Option WeatherResult) :=
  match oracle date_iso with
  | HttpOutcome.netError => Except.error ()
  | HttpOutcome.httpError => Except.error ()
  | HttpOutcome.jsonError => Except.error ()
  | HttpOutcome.ok body =>
    match firstDaily body with
    | none => Except.ok none
    | some (tmax, tmin, code) =>
      Except.ok (some ⟨tmax, tmin, code, weather_text_from_code code, body⟩)

/-- One row of the `api_data` table. -/
structure ObsRow where
  event_id : Nat
  date : String
  provider : String
  temp_max : Int
  temp_min : Int
  weather_code : Int
  weather_text : String
  raw_json : ForecastJson
deriving DecidableEq, Repr

/-- The `api_data` row inserted for event `eid` under formatted date
`fd` from fetch result `r`. -/
def mkObsRow (fd : String) (r : WeatherResult) (eid : Nat) : ObsRow :=
  ⟨eid, fd, "open-meteo", r.temp_max, r.temp_min, r.weather_code, r.weather_text, r.raw⟩

/-- `events_by_date.setdefault(date_iso, []).append(event_id)`: append
the id to the entry of the first matching key, or add a new key at the
end (Python dicts preserve insertion order). -/
def addToGroup : List (String × List Nat) → String → Nat → List (String × List Nat)
  | [], d, i => [(d, [i])]
  | (k, v) :: rest, d, i =>
    if k = d then (k, v ++ [i]) :: rest
    else (k, v) :: addToGroup rest d i

/-- The grouping loop over the fetched rows. -/
def groupAux : List (Nat × String) → List (String × List Nat) → List (String × List Nat)
  | [], acc => acc
  | (i, d) :: rest, acc => groupAux rest (addToGroup acc d i)

/-- `events_by_date`: event ids grouped by date, keys in first-occurrence
order. -/
def groupByDate (evs : List (Nat × String)) : List (String × List Nat) :=
  groupAux evs []

/-- The per-date enrichment loop of `fetch_and_store_for_events`,
threading the list of dates fetched so far and the rows inserted so
far.  An uncaught exception from `fetch_weather_for_date` propagates
(and the open transaction is never committed, so the pending rows are
lost). -/
def enrichLoop (oracle : String → HttpOutcome) :
    List (String × List Nat) → List String → List ObsRow →
    Except Unit (List String × List ObsRow)
  | [], fetched, obs => Except.ok (fetched, obs)
  | (d, ids) :: rest, fetched, obs =>
    match format_date d with
    | none => enrichLoop oracle rest fetched obs
    | some fd =>
      match fetch_weather_for_date oracle fd with
      | Except.error e => Except.error e
      | Except.ok none => enrichLoop oracle rest (fetched ++ [fd]) obs
      | Except.ok (some r) =>
        enrichLoop oracle rest (fetched ++ [fd]) (obs ++ ids.map (mkObsRow fd r))

/-- Observable result of one committed enrichment run: the outbound
fetches issued, the `api_data` rows committed, the count printed by the
final diagnostic line (absent on the early "no event dates" return),
and the Python return value — `None` on every path of the source
function. -/
structure RunResult where
  fetched : List String
  observations : List ObsRow
  printedCount : Option Nat
  returned : Option Nat
deriving DecidableEq, Repr

/-- `WeatherAPI.fetch_and_store_for_events`.  `events` models the
`SELECT id, date FROM external_events` result; the SQL `WHERE` clause
keeps rows with a non-empty date. -/
def fetch_and_store_for_events (oracle : String → HttpOutcome)
    (events : List (Nat × String)) : Except Unit RunResult :=
  let rows := events.filter fun e => decide (e.2 ≠ "")
  if rows.isEmpty then Except.ok ⟨[], [], none, none⟩
  else
    match enrichLoop oracle (groupByDate rows) [] [] with
    | Except.error e => Except.error e
    | Except.ok (f, o) => Except.ok ⟨f, o, some o.length, none⟩

/-- The dates fetched by a run that raises no exception: every distinct
date whose normalization succeeds, in grouping order. -/
def expectedFetches : List (String × List Nat) → List String
  | [] => []
  | (d, _) :: rest =>
    match format_date d with
    | none => expectedFetches rest
    | some fd => fd :: expectedFetches rest

/-- The rows inserted by a run that raises no exception: the fan-out of
each successfully fetched and fully populated date over its event ids. -/
def expectedObs (oracle : String → HttpOutcome) : List (String × List Nat) → List ObsRow
  | [] => []
  | (d, ids) :: rest =>
    match format_date d with
    | none => expectedObs oracle rest
    | some fd =>
      match fetch_weather_for_date oracle fd with
      | Except.ok (some r) => ids.map (mkObsRow fd r) ++ expectedObs oracle rest
      | _ => expectedObs oracle rest

/-! ## Scraper insert loops:
`CampusEventScraper.scrape_academic_calendar` and
`CampusEventScraper.scrape_athletics_calendar`

HTML retrieval and the BeautifulSoup candidate selection are outside
the shallow embedding; the insert loops are modelled on the list of
selected candidate texts (academic) or `(text, href)` pairs
(athletics).  Both loops build one `external_events` row per candidate:
```
iso_date = self._parse_date(line); time = self._parse_time(line)
INSERT ... VALUES (title, iso_date or '', time, '', description, source, url)
```
-/

/-- One row of the `external_events` table. -/
structure EventRow where
  title : String
  date : String
  time : String
  location : String
  description : String
  source : String
  url : String
deriving DecidableEq, Repr

/-- The row the academic scraper inserts for candidate text `line`
(`iso_date or ''` stores the empty string on a failed parse). -/
def academicRow (nowYear : Int) (url line : String) : EventRow :=
  { title := line
    date := (parse_date nowYear line none).getD ""
    time := parse_time line
    location := ""
    description := line
    source := "belmont_academic"
    url := url }

/-- The academic insert loop over the candidate texts. -/
def scrape_academic_rows (nowYear : Int) (items : List String) (url : String) :
    List EventRow :=
  items.map (academicRow nowYear url)

/-- The row the athletics scraper inserts for a candidate
`(text, href)` pair (`href or url` falls back to the page url on an
empty href). -/
def athleticsRow (nowYear : Int) (url : String) (item : String × String) : EventRow :=
  { title := item.1
    date := (parse_date nowYear item.1 none).getD ""
    time := parse_time item.1
    location := ""
    description := item.1
    source := "abbey_athletics"
    url := if item.2 = "" then url else item.2 }

/-- The athletics insert loop over the candidate pairs. -/
def scrape_athletics_rows (nowYear : Int) (items : List (String × String)) (url : String) :
    List EventRow :=
  items.map (athleticsRow nowYear url)

/-! ## Weather append step: `CampusEventScraper.scrape_weather`

Source (`utils/event_scraper.py`): read `(date, title)` for every row
with a non-empty date, then for each such event fetch the AccuWeather
page (the whole body of the loop is inside `try`, so a failed fetch
skips the event) and run
```
UPDATE external_events
SET description = description || ' | Weather: ' || ?
WHERE title = ? AND date = ?
```
The summary oracle is indexed by the iteration number: every iteration
requests the same fixed URL and may observe a different response;
`none` models a raised/failing fetch, `some s` the extracted summary
text (including the `'No forecast available'` fallback). -/

/-- The `UPDATE ... WHERE title = t AND date = d` statement. -/
def applyWeatherUpdate (t d s : String) (tbl : List EventRow) : List EventRow :=
  tbl.map fun row =>
    if row.title = t ∧ row.date = d then
      { row with description := row.description ++ " | Weather: " ++ s }
    else row

/-- The per-event loop of `scrape_weather`. -/
def weatherLoop (oracle : Nat → Option String) :
    List (String × String) → Nat → List EventRow → List EventRow
  | [], _, tbl => tbl
  | (d, t) :: rest, i, tbl =>
    match oracle i with
    | none => weatherLoop oracle rest (i + 1) tbl
    | some s => weatherLoop oracle rest (i + 1) (applyWeatherUpdate t d s tbl)

/-- `CampusEventScraper.scrape_weather` on a table state. -/
def scrape_weather (oracle : Nat → Option String) (tbl : List EventRow) :
    List EventRow :=
  weatherLoop oracle
    ((tbl.filter fun r => decide (r.date ≠ "")).map fun r => (r.date, r.title)) 0 tbl

/-- Concatenation of appended weather segments: each successful update
appends `" | Weather: " ++ summary` to the description. -/
def weatherSuffix : List String → String
  | [] => ""
  | s :: rest => " | Weather: " ++ s ++ weatherSuffix rest

/-! ## Normalization predicates (used to state the `_clean` claims) -/

/-- The first character exists and is whitespace. -/
def headIsWS : List Char → Bool
  | [] => false
  | c :: _ => isPySpace c

/-- The last character exists and is whitespace. -/
def lastIsWS : List Char → Bool
  | [] => false
  | [c] => isPySpace c
  | _ :: c :: rest => lastIsWS (c :: rest)

/-- No two consecutive whitespace characters. -/
def noDoubleWS : List Char → Bool
  | [] => true
  | c :: rest => (!(isPySpace c && headIsWS rest)) && noDoubleWS rest

/-- Every whitespace character is a plain space. -/
def wsCanon (cs : List Char) : Bool :=
  cs.all fun c => !isPySpace c || decide (c = ' ')

/-! ## Concrete test fixtures for witnesses and counterexamples -/

/-- An oracle whose every response is a full clear-sky payload. -/
def clearSkyOracle : String → HttpOutcome :=
  fun _ => HttpOutcome.ok ⟨some ⟨[20], [5], [0]⟩⟩

/-- An oracle whose every request raises a network error. -/
def netFailOracle : String → HttpOutcome :=
  fun _ => HttpOutcome.netError

/-- An oracle returning a 2xx JSON body missing the expected fields for
2025-12-02 and a full payload for every other date. -/
def mixedOracle : String → HttpOutcome :=
  fun d => if d = "2025-12-02" then HttpOutcome.ok ⟨none⟩
           else HttpOutcome.ok ⟨some ⟨[20], [5], [0]⟩⟩

/-- The fetch result corresponding to `clearSkyOracle`. -/
def clearSkyResult : WeatherResult :=
  ⟨20, 5, 0, "Clear", ⟨some ⟨[20], [5], [0]⟩⟩⟩

/-- A sample stored event row on a fixed date. -/
def sampleEventRow : EventRow :=
  ⟨"Concert", "2025-12-02", "7:30 pm", "", "Concert night", "abbey_athletics", "u"⟩

/-- A summary oracle that always succeeds with a fixed summary. -/
def sunnyOracle : Nat → Option String := fun _ => some "Sunny"

/-- First entry of an association list under a key (used to state
properties of `groupByDate`). -/
def entryOf (gs : List (String × List Nat)) (k : String) : List Nat :=
  match gs with
  | [] => []
  | (d, v) :: rest => if d = k then v else entryOf rest k

/-! # Theorems -/

/-- Claim C3: for every integer weather code, `_weather_text_from_code`
returns the label of the first matching rule of the ordered table:
exactly 0 gives "Clear"; 1–3 give "Partly Cloudy"; 45–48 give "Fog";
51–67 give "Rain"; 71–77 give "Snow/Ice"; 80–82 give "Rain Showers";
any code at least 95 gives "Thunderstorm"; every other code gives
"Unknown" (all ranges inclusive).  Stated as the equality of the
source-derived classifier with the spec's ordered table. -/
theorem c3_weather_code_table :
    ∀ code : Int, weather_text_from_code code = weather_text_spec code := by
  intro c
  unfold weather_text_from_code weather_text_spec
  simp only [List.mem_cons, List.not_mem_nil, or_false]
  split_ifs <;> first | rfl | omega

/-- Claim C4 counterexample: the claim states that code 999 maps to
"Unknown", but the source classifier's final rule is `95 <= code` with
no upper bound, so 999 maps to "Thunderstorm". -/
theorem c4_counterexample :
    weather_text_from_code 999 = "Thunderstorm" ∧
    weather_text_from_code 999 ≠ "Unknown" := by
  exact ⟨rfl, by decide⟩

/-- Claim C4 amended: codes 96 and 99 map to "Thunderstorm", and so
does 999 (any code at least 95), rather than "Unknown". -/
theorem c4_amended_thunderstorm :
    weather_text_from_code 96 = "Thunderstorm" ∧
    weather_text_from_code 99 = "Thunderstorm" ∧
    weather_text_from_code 999 = "Thunderstorm" := by
  exact ⟨rfl, rfl, rfl⟩

/-- Claim C6: for every input text, `_parse_time` returns
`"<start> - <end>"` when a range of two `H:MM am|pm` tokens separated
by a dash is present (case-insensitive meridiem), else the first single
`H:MM am|pm` token verbatim, else the empty string; in particular
`"11:00 am - 12:00 pm"` maps to itself, `"11:00 am"` maps to itself and
`""` maps to `""`. -/
theorem c6_time_extractor :
    (∀ text : String, parse_time text = parse_time_claim text) ∧
    parse_time "11:00 am - 12:00 pm" = "11:00 am - 12:00 pm" ∧
    parse_time "11:00 am" = "11:00 am" ∧
    parse_time "" = "" := by
  exact ⟨fun _ => rfl, rfl, rfl, rfl⟩

/-- Claim C5 counterexample: the claim states that when the first
pattern matches with the year omitted, the given fallback year is
substituted, and the result is null exactly when the resolved
month/day/year is not a valid calendar date.  For the text
`"December 2"` with fallback year 50 the resolved date December 2 of
year 50 is a perfectly valid calendar date, so the claim's algorithm
produces `"0050-12-02"` — but the source rebuilds the string
`"December 2 50"` and re-parses it with `strptime`'s `%Y`, which
requires exactly four year digits, so the code returns null. -/
theorem c5_counterexample :
    parse_date 2026 "December 2" (some 50) = none ∧
    parse_date_claim 2026 "December 2" (some 50) = some "0050-12-02" := by
  exact ⟨rfl, rfl⟩

/-- Claim C5 amended: `_parse_date` tries the `MonthName Day[, Year]`
pattern first; when the year is omitted it substitutes the fallback
year if given and nonzero (a fallback year of 0 is falsy in
`default_year or datetime.now().year` and is replaced by the current
calendar year); if the pattern matches, the result is the resolved date
when it is a valid calendar date whose year renders as exactly four
digits (1000–9999, as `strptime`'s `%Y` requires), and null otherwise
— never falling back to the second pattern; if the first pattern does
not match, the first `MM/DD/YYYY` substring is resolved instead (null
if invalid); if neither matches, the result is null.  In particular
`"December 2, 2025"` yields `"2025-12-02"` and `"no date here"` yields
null. -/
theorem c5_date_extractor_amended :
    (∀ (nowYear : Int) (text : String) (fy : Option Int),
       parse_date nowYear text fy = parse_date_amended nowYear text fy) ∧
    parse_date 2031 "December 2, 2025" none = some "2025-12-02" ∧
    parse_date 2031 "December 2" (some 2025) = some "2025-12-02" ∧
    parse_date 2025 "December 2" none = some "2025-12-02" ∧
    parse_date 2026 "February 30, 2025 or 12/2/2025" none = none ∧
    (∀ (nowYear : Int) (fy : Option Int),
       parse_date nowYear "no date here" fy = none) := by
  exact ⟨fun _ _ _ => rfl, rfl, rfl, rfl, rfl, fun _ _ => rfl⟩

/-! ### Lemmas about `collapseWS`, `dropTrailWS` and `stripChars` -/

theorem collapseWS_props :
    ∀ (cs : List Char) (b : Bool),
      wsCanon (collapseWS b cs) = true ∧ noDoubleWS (collapseWS b cs) = true ∧
      (b = true → headIsWS (collapseWS b cs) = false) := by
  intro cs
  induction cs with
  | nil => intro b; exact ⟨rfl, rfl, fun _ => rfl⟩
  | cons c cs ih =>
    intro b
    by_cases hc : isPySpace c = true
    · cases b with
      | true =>
        simp only [collapseWS, hc, if_true]
        exact ⟨(ih true).1, (ih true).2.1, fun _ => (ih true).2.2 rfl⟩
      | false =>
        obtain ⟨h1, h2, h3⟩ := ih true
        simp only [collapseWS, hc, if_true, if_false]
        refine ⟨?_, ?_, fun h => by cases h⟩
        · simp [wsCanon] at h1 ⊢
          exact h1
        · simp only [noDoubleWS, h3 rfl, Bool.and_false, Bool.not_false, Bool.true_and]
          exact h2
    · obtain ⟨h1, h2, h3⟩ := ih false
      simp only [Bool.not_eq_true] at hc
      simp only [collapseWS, hc, if_false]
      refine ⟨?_, ?_, fun _ => ?_⟩
      · simp [wsCanon, hc] at h1 ⊢
        exact h1
      · simp only [noDoubleWS, hc, Bool.false_and, Bool.not_false, Bool.true_and]
        exact h2
      · simp [headIsWS, hc]

theorem dropTrailWS_cons (c : Char) (cs : List Char) :
    dropTrailWS (c :: cs) =
      match dropTrailWS cs with
      | [] => if isPySpace c then [] else [c]
      | r => c :: r := rfl

/-- A nonempty `dropTrailWS` result keeps the original head. -/
theorem dropTrailWS_shape (c : Char) (cs : List Char) :
    dropTrailWS (c :: cs) = [] ∨ ∃ r, dropTrailWS (c :: cs) = c :: r := by
  rw [dropTrailWS_cons]
  cases h : dropTrailWS cs with
  | nil =>
    by_cases hc : isPySpace c = true
    · left; simp [hc]
    · right; exact ⟨[], by simp [hc]⟩
  | cons a r => right; exact ⟨a :: r, rfl⟩

theorem dropTrailWS_wsCanon :
    ∀ cs : List Char, wsCanon cs = true → wsCanon (dropTrailWS cs) = true := by
  intro cs
  induction cs with
  | nil => intro _; rfl
  | cons c cs ih =>
    intro h
    simp only [wsCanon, List.all_cons, Bool.and_eq_true] at h
    rw [dropTrailWS_cons]
    cases hr : dropTrailWS cs with
    | nil =>
      by_cases hc : isPySpace c = true <;>
        simp [hc, wsCanon, h.1]
    | cons a r =>
      have := ih h.2
      rw [hr] at this
      simp only [wsCanon, List.all_cons, Bool.and_eq_true] at this ⊢
      exact ⟨h.1, this⟩

theorem dropTrailWS_noDouble :
    ∀ cs : List Char, noDoubleWS cs = true → noDoubleWS (dropTrailWS cs) = true := by
  intro cs
  induction cs with
  | nil => intro _; rfl
  | cons c cs ih =>
    intro h
    simp only [noDoubleWS, Bool.and_eq_true] at h
    rw [dropTrailWS_cons]
    cases hr : dropTrailWS cs with
    | nil =>
      by_cases hc : isPySpace c = true <;> simp [hc, noDoubleWS, headIsWS]
    | cons a r =>
      have hnd := ih h.2
      rw [hr] at hnd
      -- the head of a nonempty `dropTrailWS cs` is the head of `cs`
      have hhead : headIsWS (a :: r) = headIsWS cs := by
        cases cs with
        | nil => simp [dropTrailWS] at hr
        | cons c2 ct =>
          rcases dropTrailWS_shape c2 ct with h0 | ⟨r2, h2⟩
          · rw [h0] at hr; cases hr
          · rw [h2] at hr
            cases hr
            rfl
      have hstep : noDoubleWS (c :: a :: r) =
          ((!(isPySpace c && headIsWS (a :: r))) && noDoubleWS (a :: r)) := rfl
      rw [hstep, Bool.and_eq_true]
      exact ⟨by rw [hhead]; exact h.1, hnd⟩

theorem dropTrailWS_lastNotWS :
    ∀ cs : List Char, lastIsWS (dropTrailWS cs) = false := by
  intro cs
  induction cs with
  | nil => rfl
  | cons c cs ih =>
    rw [dropTrailWS_cons]
    cases hr : dropTrailWS cs with
    | nil =>
      by_cases hc : isPySpace c = true <;> simp [hc, lastIsWS]
    | cons a r =>
      rw [hr] at ih
      exact ih

theorem dropTrailWS_id :
    ∀ cs : List Char, lastIsWS cs = false → dropTrailWS cs = cs := by
  intro cs
  induction cs with
  | nil => intro _; rfl
  | cons c cs ih =>
    intro h
    rw [dropTrailWS_cons]
    cases cs with
    | nil =>
      simp only [lastIsWS] at h
      simp [dropTrailWS, h]
    | cons c2 ct =>
      have : lastIsWS (c2 :: ct) = false := h
      rw [ih this]

theorem dropWhileWS_head :
    ∀ cs : List Char, headIsWS (cs.dropWhile isPySpace) = false := by
  intro cs
  induction cs with
  | nil => rfl
  | cons c cs ih =>
    by_cases hc : isPySpace c = true
    · simpa [List.dropWhile, hc] using ih
    · simp only [Bool.not_eq_true] at hc
      simp [List.dropWhile, hc, headIsWS]

theorem dropWhileWS_wsCanon :
    ∀ cs : List Char, wsCanon cs = true → wsCanon (cs.dropWhile isPySpace) = true := by
  intro cs
  induction cs with
  | nil => intro _; rfl
  | cons c cs ih =>
    intro h
    simp only [wsCanon, List.all_cons, Bool.and_eq_true] at h
    by_cases hc : isPySpace c = true
    · simpa [List.dropWhile, hc] using ih h.2
    · simp only [Bool.not_eq_true] at hc
      simp only [List.dropWhile, hc]
      simp only [wsCanon, List.all_cons, Bool.and_eq_true]
      exact ⟨h.1, h.2⟩

theorem dropWhileWS_noDouble :
    ∀ cs : List Char, noDoubleWS cs = true → noDoubleWS (cs.dropWhile isPySpace) = true := by
  intro cs
  induction cs with
  | nil => intro _; rfl
  | cons c cs ih =>
    intro h
    simp only [noDoubleWS, Bool.and_eq_true] at h
    by_cases hc : isPySpace c = true
    · simpa [List.dropWhile, hc] using ih h.2
    · simp only [Bool.not_eq_true] at hc
      simp only [List.dropWhile, hc]
      simp only [noDoubleWS, Bool.and_eq_true]
      exact ⟨h.1, h.2⟩

theorem dropWhileWS_id :
    ∀ cs : List Char, headIsWS cs = false → cs.dropWhile isPySpace = cs := by
  intro cs h
  cases cs with
  | nil => rfl
  | cons c ct =>
    simp only [headIsWS] at h
    simp [List.dropWhile, h]

theorem collapseWS_id :
    ∀ (cs : List Char) (b : Bool), wsCanon cs = true → noDoubleWS cs = true →
      (b = true → headIsWS cs = false) → collapseWS b cs = cs := by
  intro cs
  induction cs with
  | nil => intro b _ _ _; rfl
  | cons c cs ih =>
    intro b h1 h2 h3
    simp only [wsCanon, List.all_cons, Bool.and_eq_true] at h1
    simp only [noDoubleWS, Bool.and_eq_true] at h2
    by_cases hc : isPySpace c = true
    · cases b with
      | true => exact absurd (h3 rfl) (by simp [headIsWS, hc])
      | false =>
        have hcsp : c = ' ' := by
          have := h1.1
          simp [hc] at this
          exact this
        have hhw : headIsWS cs = false := by
          have := h2.1
          simp [hc] at this
          exact this
        simp only [collapseWS, hc]
        simp only [Bool.false_eq_true, if_true, if_false]
        rw [ih true h1.2 h2.2 (fun _ => hhw), hcsp]
    · simp only [Bool.not_eq_true] at hc
      simp only [collapseWS, hc]
      simp only [Bool.false_eq_true, if_false]
      rw [ih false h1.2 h2.2 (fun h => by cases h)]

theorem mk_toList (s : String) : String.mk s.toList = s := rfl

theorem toList_mk (l : List Char) : (String.mk l).toList = l := rfl

/-- The four normalization facts about a cleaned string's characters. -/
theorem clean_props (s : String) :
    wsCanon (clean s).toList = true ∧ noDoubleWS (clean s).toList = true ∧
    headIsWS (clean s).toList = false ∧ lastIsWS (clean s).toList = false := by
  by_cases hs : s = ""
  · subst hs
    exact ⟨rfl, rfl, rfl, rfl⟩
  · unfold clean
    rw [if_neg hs]
    rw [toList_mk]
    unfold stripChars
    obtain ⟨hcanon, hnd, _⟩ := collapseWS_props s.toList false
    refine ⟨?_, ?_, ?_, ?_⟩
    · exact dropTrailWS_wsCanon _ (dropWhileWS_wsCanon _ hcanon)
    · exact dropTrailWS_noDouble _ (dropWhileWS_noDouble _ hnd)
    · rcases h : (collapseWS false s.toList).dropWhile isPySpace with _ | ⟨a, r⟩
      · rfl
      · rcases dropTrailWS_shape a r with h0 | ⟨r2, h2⟩
        · rw [h0]; rfl
        · rw [h2]
          have := dropWhileWS_head (collapseWS false s.toList)
          rw [h] at this
          exact this
    · exact dropTrailWS_lastNotWS _

/-- Claim C10: the text normalizer `_clean` is idempotent; its result
never has leading or trailing whitespace and never contains two
consecutive whitespace characters; and the empty or null input yields
the empty string. -/
theorem c10_clean_normalizer :
    (∀ s : String, clean (clean s) = clean s) ∧
    (∀ s : String, headIsWS (clean s).toList = false ∧ lastIsWS (clean s).toList = false) ∧
    (∀ s : String, noDoubleWS (clean s).toList = true) ∧
    clean "" = "" ∧ cleanOpt none = "" := by
  have hidem : ∀ s : String, clean (clean s) = clean s := by
    intro s
    obtain ⟨h1, h2, h3, h4⟩ := clean_props s
    generalize hT : clean s = t at h1 h2 h3 h4 ⊢
    by_cases ht : t = ""
    · rw [ht]; rfl
    · unfold clean
      rw [if_neg ht, collapseWS_id _ false h1 h2 (fun h => by cases h)]
      unfold stripChars
      rw [dropWhileWS_id _ h3, dropTrailWS_id _ h4]
      exact mk_toList t
  exact ⟨hidem, fun s => ⟨(clean_props s).2.2.1, (clean_props s).2.2.2⟩,
    fun s => (clean_props s).2.1, rfl, rfl⟩

/-! ### Digit arithmetic and date validity of parser output -/

theorem digitVal_le (c : Char) (h : isDigitChar c = true) : digitVal c ≤ 9 := by
  simp only [isDigitChar, decide_eq_true_eq] at h
  unfold digitVal
  omega

theorem foldl_digits_lt :
    ∀ (l : List Char) (a : Nat), (∀ c ∈ l, isDigitChar c = true) →
      l.foldl (fun a c => a * 10 + digitVal c) a < (a + 1) * 10 ^ l.length := by
  intro l
  induction l with
  | nil =>
    intro a _
    simp only [List.foldl_nil, List.length_nil, pow_zero, mul_one]
    omega
  | cons c l ih =>
    intro a h
    have hc := digitVal_le c (h c (List.mem_cons_self c l))
    simp only [List.foldl_cons, List.length_cons]
    refine lt_of_lt_of_le
      (ih (a * 10 + digitVal c) (fun x hx => h x (List.mem_cons_of_mem c hx))) ?_
    have h1 : a * 10 + digitVal c + 1 ≤ (a + 1) * 10 := by omega
    calc (a * 10 + digitVal c + 1) * 10 ^ l.length
        ≤ ((a + 1) * 10) * 10 ^ l.length := Nat.mul_le_mul_right _ h1
      _ = (a + 1) * 10 ^ (l.length + 1) := by ring

theorem natOfDigits_lt (l : List Char) (h : ∀ c ∈ l, isDigitChar c = true) :
    natOfDigits l < 10 ^ l.length := by
  have := foldl_digits_lt l 0 h
  simpa [natOfDigits] using this

theorem digitChar_facts (k : Nat) (hk : k < 10) :
    isDigitChar (digitChar k) = true ∧ digitVal (digitChar k) = k := by
  interval_cases k <;> exact ⟨rfl, rfl⟩

theorem daysInMonth_le (y m : Nat) : daysInMonth y m ≤ 31 := by
  unfold daysInMonth
  split_ifs <;> omega

theorem isValidYMD_toYMD (y m d : Nat) (hy1 : 1 ≤ y) (hy2 : y ≤ 9999)
    (hm1 : 1 ≤ m) (hm2 : m ≤ 12) (hd1 : 1 ≤ d) (hd2 : d ≤ daysInMonth y m) :
    isValidYMD (toYMD y m d) = true := by
  have t10 : (10 : Nat) > 0 := by norm_num
  have e1 := digitChar_facts (y / 1000 % 10) (Nat.mod_lt _ t10)
  have e2 := digitChar_facts (y / 100 % 10) (Nat.mod_lt _ t10)
  have e3 := digitChar_facts (y / 10 % 10) (Nat.mod_lt _ t10)
  have e4 := digitChar_facts (y % 10) (Nat.mod_lt _ t10)
  have e5 := digitChar_facts (m / 10 % 10) (Nat.mod_lt _ t10)
  have e6 := digitChar_facts (m % 10) (Nat.mod_lt _ t10)
  have e7 := digitChar_facts (d / 10 % 10) (Nat.mod_lt _ t10)
  have e8 := digitChar_facts (d % 10) (Nat.mod_lt _ t10)
  have hd99 : d ≤ 31 := le_trans hd2 (daysInMonth_le y m)
  have f1 := e1.2
  have f2 := e2.2
  have f3 := e3.2
  have f4 := e4.2
  have f5 := e5.2
  have f6 := e6.2
  have f7 := e7.2
  have f8 := e8.2
  have hy : natOfDigits [digitChar (y / 1000 % 10), digitChar (y / 100 % 10),
      digitChar (y / 10 % 10), digitChar (y % 10)] = y := by
    simp only [natOfDigits, List.foldl_cons, List.foldl_nil]
    omega
  have hm : natOfDigits [digitChar (m / 10 % 10), digitChar (m % 10)] = m := by
    simp only [natOfDigits, List.foldl_cons, List.foldl_nil]
    omega
  have hd : natOfDigits [digitChar (d / 10 % 10), digitChar (d % 10)] = d := by
    simp only [natOfDigits, List.foldl_cons, List.foldl_nil]
    omega
  unfold isValidYMD toYMD
  rw [toList_mk]
  simp only [parseCanonicalYMD]
  rw [if_pos (by simp [e1.1, e2.1, e3.1, e4.1, e5.1, e6.1, e7.1, e8.1])]
  simp only [hy, hm, hd]
  rw [if_pos ⟨hy1, hm1, hm2, hd1, hd2⟩]
  rfl

theorem findMonth_snd :
    ∀ (tbl : List (List Char × Nat)) (cs : List Char) (n : Nat) (rest : List Char),
      findMonth tbl cs = some (n, rest) → n ∈ tbl.map Prod.snd := by
  intro tbl
  induction tbl with
  | nil => intro cs n rest h; simp [findMonth] at h
  | cons p tbl ih =>
    intro cs n rest h
    obtain ⟨name, k⟩ := p
    simp only [findMonth] at h
    cases hd : dropPrefixQ name cs with
    | some r =>
      rw [hd] at h
      simp only [Option.some.injEq, Prod.mk.injEq] at h
      simp [← h.1]
    | none =>
      rw [hd] at h
      exact List.mem_cons_of_mem _ (ih cs n rest h)

theorem matchDateP1At_month (cs : List Char) (mo day : Nat) (yO : Option Nat)
    (h : matchDateP1At cs = some (mo, day, yO)) : 1 ≤ mo ∧ mo ≤ 12 := by
  cases hm : findMonth monthTable cs with
  | none =>
    simp only [matchDateP1At, hm] at h
    exact Option.noConfusion h
  | some r =>
    obtain ⟨mo', r1⟩ := r
    cases hdy : matchDayYearAt r1 with
    | none =>
      simp only [matchDateP1At, hm, hdy] at h
      exact Option.noConfusion h
    | some dy =>
      obtain ⟨day', yO'⟩ := dy
      simp only [matchDateP1At, hm, hdy, Option.some.injEq, Prod.mk.injEq] at h
      have hmem : mo' ∈ monthTable.map Prod.snd := findMonth_snd monthTable cs mo' r1 hm
      rw [← h.1]
      simp only [monthTable, List.map_cons, List.map_nil, List.mem_cons,
        List.not_mem_nil, or_false] at hmem
      omega

theorem searchDateP1_month :
    ∀ (cs : List Char) (mo day : Nat) (yO : Option Nat),
      searchDateP1 cs = some (mo, day, yO) → 1 ≤ mo ∧ mo ≤ 12 := by
  intro cs
  induction cs with
  | nil => intro mo day yO h; cases h
  | cons c ct ih =>
    intro mo day yO h
    simp only [searchDateP1] at h
    cases hm : matchDateP1At (c :: ct) with
    | some r =>
      rw [hm] at h
      obtain ⟨mo', day', yO'⟩ := r
      simp only [Option.some.injEq, Prod.mk.injEq] at h
      obtain ⟨h1, h2, h3⟩ := h
      subst h1; subst h2; subst h3
      exact matchDateP1At_month _ _ _ _ hm
    | none =>
      rw [hm] at h
      exact ih mo day yO h

theorem natOfDigits_take4_le (l : List Char)
    (h4 : 4 ≤ (l.takeWhile isDigitChar).length) :
    natOfDigits ((l.takeWhile isDigitChar).take 4) ≤ 9999 := by
  have hdig : ∀ c ∈ (l.takeWhile isDigitChar).take 4, isDigitChar c = true :=
    fun c hc => List.mem_takeWhile_imp (List.take_subset 4 _ hc)
  have hlen : ((l.takeWhile isDigitChar).take 4).length = 4 := by
    rw [List.length_take]
    omega
  have := natOfDigits_lt _ hdig
  rw [hlen] at this
  omega

theorem matchDateP2At_year (cs : List Char) (mo day yr : Nat)
    (h : matchDateP2At cs = some (mo, day, yr)) : yr ≤ 9999 := by
  simp only [matchDateP2At] at h
  split at h
  · cases h
  · split at h
    · split at h
      · cases h
      · split at h
        · split at h
          · rename_i hlen
            simp only [Option.some.injEq, Prod.mk.injEq] at h
            obtain ⟨-, -, h3⟩ := h
            rw [← h3]
            exact natOfDigits_take4_le _ hlen
          · cases h
        · cases h
    · cases h

theorem searchDateP2_year :
    ∀ (cs : List Char) (mo day yr : Nat),
      searchDateP2 cs = some (mo, day, yr) → yr ≤ 9999 := by
  intro cs
  induction cs with
  | nil => intro mo day yr h; cases h
  | cons c ct ih =>
    intro mo day yr h
    simp only [searchDateP2] at h
    cases hm : matchDateP2At (c :: ct) with
    | some r =>
      rw [hm] at h
      obtain ⟨mo', day', yr'⟩ := r
      simp only [Option.some.injEq, Prod.mk.injEq] at h
      obtain ⟨h1, h2, h3⟩ := h
      subst h1; subst h2; subst h3
      exact matchDateP2At_year _ _ _ _ hm
    | none =>
      rw [hm] at h
      exact ih mo day yr h

/-- Every date string the Date Extractor returns is a valid canonical
ISO `YYYY-MM-DD` calendar date. -/
theorem parse_date_valid (nowYear : Int) (text : String) (fy : Option Int) (s : String)
    (h : parse_date nowYear text fy = some s) : isValidYMD s = true := by
  unfold parse_date at h
  cases h1 : searchDateP1 text.toList with
  | some r =>
    obtain ⟨mo, day, yO⟩ := r
    rw [h1] at h
    obtain ⟨hmo1, hmo2⟩ := searchDateP1_month _ _ _ _ h1
    dsimp only at h
    split at h
    · rename_i hcond
      obtain ⟨hc1, hc2, hc3, hc4⟩ := hcond
      simp only [Option.some.injEq] at h
      rw [← h]
      exact isValidYMD_toYMD _ _ _ (by omega) (by omega) hmo1 hmo2 hc3 hc4
    · exact Option.noConfusion h
  | none =>
    rw [h1] at h
    cases h2 : searchDateP2 text.toList with
    | some r =>
      obtain ⟨mo, day, yr⟩ := r
      rw [h2] at h
      have hyr := searchDateP2_year _ _ _ _ h2
      dsimp only at h
      split at h
      · rename_i hcond
        obtain ⟨hc1, hc2, hc3, hc4, hc5⟩ := hcond
        simp only [Option.some.injEq] at h
        rw [← h]
        exact isValidYMD_toYMD _ _ _ hc5 hyr hc1 hc2 hc3 hc4
      · exact Option.noConfusion h
    | none =>
      rw [h2] at h
      exact Option.noConfusion h

/-- A valid canonical ISO date string is nonempty. -/
theorem isValidYMD_ne_empty (s : String) (h : isValidYMD s = true) : s ≠ "" := by
  intro he
  subst he
  exact Bool.noConfusion h

/-- Claim C8: every `external_events` row inserted by the two scrapers
has a `date` field that is either the empty string or a valid ISO
`YYYY-MM-DD` date, and a candidate whose date parse returns null is
still inserted — with `date` set to the empty string — rather than
dropped; one row is inserted per candidate, for both the academic and
the athletics scraper. -/
theorem c8_scraper_date_invariant :
    (∀ (nowYear : Int) (items : List String) (url : String),
       (scrape_academic_rows nowYear items url).length = items.length ∧
       (∀ row ∈ scrape_academic_rows nowYear items url,
         row.date = "" ∨ isValidYMD row.date = true) ∧
       (∀ line ∈ items, parse_date nowYear line none = none →
         academicRow nowYear url line ∈ scrape_academic_rows nowYear items url ∧
         (academicRow nowYear url line).date = "")) ∧
    (∀ (nowYear : Int) (items : List (String × String)) (url : String),
       (scrape_athletics_rows nowYear items url).length = items.length ∧
       (∀ row ∈ scrape_athletics_rows nowYear items url,
         row.date = "" ∨ isValidYMD row.date = true) ∧
       (∀ item ∈ items, parse_date nowYear item.1 none = none →
         athleticsRow nowYear url item ∈ scrape_athletics_rows nowYear items url ∧
         (athleticsRow nowYear url item).date = "")) := by
  constructor
  · intro nowYear items url
    refine ⟨List.length_map _ _, ?_, ?_⟩
    · intro row hrow
      obtain ⟨line, -, hline⟩ := List.mem_map.mp hrow
      cases hp : parse_date nowYear line none with
      | none =>
        left
        rw [← hline]
        simp [academicRow, hp]
      | some s =>
        right
        have : row.date = s := by rw [← hline]; simp [academicRow, hp]
        rw [this]
        exact parse_date_valid _ _ _ _ hp
    · intro line hline hp
      exact ⟨List.mem_map_of_mem _ hline, by simp [academicRow, hp]⟩
  · intro nowYear items url
    refine ⟨List.length_map _ _, ?_, ?_⟩
    · intro row hrow
      obtain ⟨item, -, hitem⟩ := List.mem_map.mp hrow
      cases hp : parse_date nowYear item.1 none with
      | none =>
        left
        rw [← hitem]
        simp [athleticsRow, hp]
      | some s =>
        right
        have : row.date = s := by rw [← hitem]; simp [athleticsRow, hp]
        rw [this]
        exact parse_date_valid _ _ _ _ hp
    · intro item hitem hp
      exact ⟨List.mem_map_of_mem _ hitem, by simp [athleticsRow, hp]⟩

/-- Witness for C8 at concrete inputs: one parseable and one
unparseable candidate through the academic scraper, one unparseable
candidate through the athletics scraper. -/
theorem c8_scraper_date_invariant_witness :
    (scrape_academic_rows 2025 ["Fall Break December 2, 2025", "no date here"] "u").length = 2 ∧
    (academicRow 2025 "u" "no date here" ∈
      scrape_academic_rows 2025 ["Fall Break December 2, 2025", "no date here"] "u") ∧
    (academicRow 2025 "u" "no date here").date = "" ∧
    (athleticsRow 2025 "u" ("no date here", "h") ∈
      scrape_athletics_rows 2025 [("no date here", "h")] "u") ∧
    (athleticsRow 2025 "u" ("no date here", "h")).date = "" := by
  obtain ⟨hac, hath⟩ := c8_scraper_date_invariant
  obtain ⟨hlen, -, hnull⟩ := hac 2025 ["Fall Break December 2, 2025", "no date here"] "u"
  obtain ⟨-, -, hnull2⟩ := hath 2025 [("no date here", "h")] "u"
  have h1 := hnull "no date here" (by simp) (by rfl)
  have h2 := hnull2 ("no date here", "h") (by simp) (by rfl)
  exact ⟨hlen, h1.1, h1.2, h2.1, h2.2⟩

/-! ### The weather append step touches only `description` -/

theorem applyWeatherUpdate_length (t d s : String) (tbl : List EventRow) :
    (applyWeatherUpdate t d s tbl).length = tbl.length :=
  List.length_map _ _

theorem applyWeatherUpdate_get (t d s : String) (tbl : List EventRow) (j : Nat)
    (hj : j < tbl.length) (hj' : j < (applyWeatherUpdate t d s tbl).length) :
    (applyWeatherUpdate t d s tbl)[j] =
      if tbl[j].title = t ∧ tbl[j].date = d then
        { tbl[j] with description := tbl[j].description ++ " | Weather: " ++ s }
      else tbl[j] := by
  unfold applyWeatherUpdate
  rw [List.getElem_map]

theorem weatherLoop_frame (oracle : Nat → Option String) :
    ∀ (evs : List (String × String)) (i0 : Nat) (tbl : List EventRow),
      (weatherLoop oracle evs i0 tbl).length = tbl.length ∧
      ∀ (j : Nat) (hj : j < tbl.length) (hj' : j < (weatherLoop oracle evs i0 tbl).length),
        (weatherLoop oracle evs i0 tbl)[j].title = tbl[j].title ∧
        (weatherLoop oracle evs i0 tbl)[j].date = tbl[j].date ∧
        (weatherLoop oracle evs i0 tbl)[j].time = tbl[j].time ∧
        (weatherLoop oracle evs i0 tbl)[j].location = tbl[j].location ∧
        (weatherLoop oracle evs i0 tbl)[j].source = tbl[j].source ∧
        (weatherLoop oracle evs i0 tbl)[j].url = tbl[j].url ∧
        ∃ l : List String,
          (weatherLoop oracle evs i0 tbl)[j].description =
            tbl[j].description ++ weatherSuffix l := by
  intro evs
  induction evs with
  | nil =>
    intro i0 tbl
    refine ⟨rfl, fun j hj hj' => ⟨rfl, rfl, rfl, rfl, rfl, rfl, [], ?_⟩⟩
    show tbl[j].description = tbl[j].description ++ ""
    rw [String.append_empty]
  | cons e evs ih =>
    intro i0 tbl
    obtain ⟨d, t⟩ := e
    cases ho : oracle i0 with
    | none =>
      simp only [weatherLoop, ho]
      exact ih (i0 + 1) tbl
    | some s =>
      simp only [weatherLoop, ho]
      obtain ⟨ihlen, ihpt⟩ := ih (i0 + 1) (applyWeatherUpdate t d s tbl)
      refine ⟨by rw [ihlen, applyWeatherUpdate_length], ?_⟩
      intro j hj hj'
      have hj2 : j < (applyWeatherUpdate t d s tbl).length := by
        rw [applyWeatherUpdate_length]
        exact hj
      have hres := ihpt j hj2 (by rw [ihlen] at hj' ⊢; exact hj')
      rw [applyWeatherUpdate_get t d s tbl j hj hj2] at hres
      by_cases hcond : tbl[j].title = t ∧ tbl[j].date = d
      · rw [if_pos hcond] at hres
        obtain ⟨h1, h2, h3, h4, h5, h6, l, h7⟩ := hres
        refine ⟨h1, h2, h3, h4, h5, h6, s :: l, ?_⟩
        rw [h7]
        show _ = tbl[j].description ++ (" | Weather: " ++ s ++ weatherSuffix l)
        simp [String.append_assoc]
      · rw [if_neg hcond] at hres
        exact hres

/-- Claim C9: for every stored table and every fetched-summary oracle,
`scrape_weather` preserves the number of rows and, for every row, the
`title`, `date`, `time`, `location`, `source` and `url` fields; it
changes only `description`, and only by appending zero or more
`" | Weather: " ++ summary` segments. -/
theorem c9_weather_append_frame (oracle : Nat → Option String) (tbl : List EventRow) :
    (scrape_weather oracle tbl).length = tbl.length ∧
    ∀ (j : Nat) (hj : j < tbl.length) (hj' : j < (scrape_weather oracle tbl).length),
      (scrape_weather oracle tbl)[j].title = tbl[j].title ∧
      (scrape_weather oracle tbl)[j].date = tbl[j].date ∧
      (scrape_weather oracle tbl)[j].time = tbl[j].time ∧
      (scrape_weather oracle tbl)[j].location = tbl[j].location ∧
      (scrape_weather oracle tbl)[j].source = tbl[j].source ∧
      (scrape_weather oracle tbl)[j].url = tbl[j].url ∧
      ∃ l : List String,
        (scrape_weather oracle tbl)[j].description =
          tbl[j].description ++ weatherSuffix l := by
  unfold scrape_weather
  exact weatherLoop_frame oracle _ 0 tbl

/-- Witness for C9: one concrete enriched row keeps every field but the
description, which gains an appended weather segment. -/
theorem c9_weather_append_frame_witness :
    (scrape_weather sunnyOracle [sampleEventRow]).length = [sampleEventRow].length ∧
    ((scrape_weather sunnyOracle [sampleEventRow]).get ⟨0, by decide⟩).title =
      sampleEventRow.title ∧
    ((scrape_weather sunnyOracle [sampleEventRow]).get ⟨0, by decide⟩).date =
      sampleEventRow.date ∧
    ∃ l : List String,
      ((scrape_weather sunnyOracle [sampleEventRow]).get ⟨0, by decide⟩).description =
        sampleEventRow.description ++ weatherSuffix l := by
  obtain ⟨hlen, hpt⟩ := c9_weather_append_frame sunnyOracle [sampleEventRow]
  have h0 := hpt 0 (by decide) (by rw [hlen]; decide)
  exact ⟨hlen, h0.1, h0.2.1, h0.2.2.2.2.2.2⟩

/-! ### Normalization of already-canonical dates -/

theorem strptime_of_canonical :
    ∀ (cs : List Char) (y m d : Nat), parseCanonicalYMD cs = some (y, m, d) →
      (parseStrptimeYMD cs).isSome = true := by
  intro cs y m d h
  simp only [parseCanonicalYMD] at h
  split at h
  · rename_i y1 y2 y3 y4 s1 m1 m2 s2 d1 d2
    split at h
    · rename_i hcond
      obtain ⟨hs1, hs2, hy1, hy2, hy3, hy4, hm1, hm2, hd1, hd2⟩ := hcond
      split at h
      · rename_i hval
        subst hs1
        subst hs2
        have hmd : matchMonthDash [m1, m2, '-', d1, d2] =
            some (natOfDigits [m1, m2], [d1, d2]) := by
          simp only [matchMonthDash]
          rw [if_pos ⟨by trivial, hm1, hm2, hval.2.1, hval.2.2.1⟩]
          rfl
        have hde : matchDayEnd [d1, d2] = some (natOfDigits [d1, d2]) := by
          simp only [matchDayEnd]
          rw [if_pos ⟨hd1, hd2, hval.2.2.2.1,
            le_trans hval.2.2.2.2 (daysInMonth_le _ _)⟩]
        simp only [parseStrptimeYMD]
        rw [if_pos ⟨by trivial, hy1, hy2, hy3, hy4⟩]
        simp only [hmd, hde]
        rw [if_pos ⟨hval.1, hval.2.2.2.1, hval.2.2.2.2⟩]
        rfl
      · exact Option.noConfusion h
    · exact Option.noConfusion h
  · exact Option.noConfusion h

/-- `_format_date` accepts an already canonical ISO date unchanged (the
`strptime` branch hits and the function returns its input). -/
theorem format_date_valid (s : String) (h : isValidYMD s = true) :
    format_date s = some s := by
  unfold format_date
  rw [if_neg (isValidYMD_ne_empty s h)]
  unfold isValidYMD at h
  obtain ⟨⟨y, m, d⟩, hc⟩ := Option.isSome_iff_exists.mp h
  rw [if_pos (strptime_of_canonical s.toList y m d hc)]

/-! ### The grouping loop: keys, membership, content -/

theorem addToGroup_keys (acc : List (String × List Nat)) (d : String) (i : Nat) :
    (addToGroup acc d i).map Prod.fst =
      if d ∈ acc.map Prod.fst then acc.map Prod.fst
      else acc.map Prod.fst ++ [d] := by
  induction acc with
  | nil => simp [addToGroup]
  | cons p acc ih =>
    obtain ⟨k, v⟩ := p
    by_cases hk : k = d
    · subst hk
      simp [addToGroup]
    · have hdk : ¬(d = k) := fun he => hk he.symm
      simp only [addToGroup, if_neg hk, List.map_cons]
      rw [ih]
      by_cases hd : d ∈ acc.map Prod.fst
      · rw [if_pos hd, if_pos (by simp [List.mem_cons, hd])]
      · rw [if_neg hd, if_neg (by simp [List.mem_cons, hdk, hd])]
        simp

theorem addToGroup_keys_nodup (acc : List (String × List Nat)) (d : String) (i : Nat)
    (h : (acc.map Prod.fst).Nodup) : ((addToGroup acc d i).map Prod.fst).Nodup := by
  rw [addToGroup_keys]
  by_cases hd : d ∈ acc.map Prod.fst
  · rw [if_pos hd]
    exact h
  · rw [if_neg hd]
    simp [List.nodup_append, h, hd]

theorem groupAux_keys_nodup :
    ∀ (evs : List (Nat × String)) (acc : List (String × List Nat)),
      (acc.map Prod.fst).Nodup → ((groupAux evs acc).map Prod.fst).Nodup := by
  intro evs
  induction evs with
  | nil => intro acc h; exact h
  | cons e evs ih =>
    intro acc h
    obtain ⟨i, d⟩ := e
    exact ih _ (addToGroup_keys_nodup acc d i h)

theorem groupByDate_keys_nodup (evs : List (Nat × String)) :
    ((groupByDate evs).map Prod.fst).Nodup :=
  groupAux_keys_nodup evs [] (by simp)

theorem addToGroup_keys_mem (acc : List (String × List Nat)) (d : String) (i : Nat)
    (k : String) :
    k ∈ (addToGroup acc d i).map Prod.fst ↔ (k ∈ acc.map Prod.fst ∨ k = d) := by
  rw [addToGroup_keys]
  by_cases hd : d ∈ acc.map Prod.fst
  · rw [if_pos hd]
    constructor
    · exact fun h => Or.inl h
    · rintro (h | h)
      · exact h
      · rw [h]; exact hd
  · rw [if_neg hd]
    simp [List.mem_append]

theorem groupAux_keys_mem :
    ∀ (evs : List (Nat × String)) (acc : List (String × List Nat)) (k : String),
      k ∈ (groupAux evs acc).map Prod.fst ↔
        (k ∈ acc.map Prod.fst ∨ k ∈ evs.map Prod.snd) := by
  intro evs
  induction evs with
  | nil => intro acc k; simp [groupAux]
  | cons e evs ih =>
    intro acc k
    obtain ⟨i, d⟩ := e
    show k ∈ (groupAux evs (addToGroup acc d i)).map Prod.fst ↔ _
    rw [ih, addToGroup_keys_mem]
    simp only [List.map_cons, List.mem_cons]
    tauto

theorem groupByDate_keys_mem (evs : List (Nat × String)) (k : String) :
    k ∈ (groupByDate evs).map Prod.fst ↔ k ∈ evs.map Prod.snd := by
  have := groupAux_keys_mem evs [] k
  simpa [groupByDate] using this

theorem entryOf_addToGroup (acc : List (String × List Nat)) (d : String) (i : Nat)
    (k : String) :
    entryOf (addToGroup acc d i) k =
      entryOf acc k ++ (if k = d then [i] else []) := by
  induction acc with
  | nil =>
    by_cases hk : k = d
    · subst hk
      simp [addToGroup, entryOf]
    · have hdk : ¬(d = k) := fun he => hk he.symm
      simp [addToGroup, entryOf, hk, hdk]
  | cons p acc ih =>
    obtain ⟨k0, v0⟩ := p
    by_cases hk0d : k0 = d
    · simp only [addToGroup, if_pos hk0d, entryOf]
      by_cases hk0k : k0 = k
      · rw [if_pos hk0k, if_pos hk0k, if_pos (by rw [← hk0k]; exact hk0d)]
      · rw [if_neg hk0k, if_neg hk0k]
        have hkd : ¬(k = d) := by
          intro he
          exact hk0k (by rw [hk0d, ← he])
        rw [if_neg hkd, List.append_nil]
    · simp only [addToGroup, if_neg hk0d, entryOf]
      by_cases hk0k : k0 = k
      · rw [if_pos hk0k, if_pos hk0k]
        have hkd : ¬(k = d) := by
          intro he
          exact hk0d (by rw [hk0k, he])
        rw [if_neg hkd, List.append_nil]
      · rw [if_neg hk0k, if_neg hk0k, ih]

theorem entryOf_groupAux :
    ∀ (evs : List (Nat × String)) (acc : List (String × List Nat)) (k : String),
      entryOf (groupAux evs acc) k =
        entryOf acc k ++ (evs.filter (fun e => decide (e.2 = k))).map Prod.fst := by
  intro evs
  induction evs with
  | nil => intro acc k; simp [groupAux]
  | cons e evs ih =>
    intro acc k
    obtain ⟨i, d⟩ := e
    show entryOf (groupAux evs (addToGroup acc d i)) k = _
    rw [ih, entryOf_addToGroup]
    by_cases hkd : k = d
    · subst hkd
      simp [List.filter_cons, List.append_assoc]
    · have hdk : ¬(d = k) := fun he => hkd he.symm
      simp [List.filter_cons, hdk, hkd]

theorem groupByDate_entry (evs : List (Nat × String)) (k : String) :
    entryOf (groupByDate evs) k =
      (evs.filter (fun e => decide (e.2 = k))).map Prod.fst := by
  have := entryOf_groupAux evs [] k
  simpa [groupByDate, entryOf] using this

theorem mem_entryOf :
    ∀ (gs : List (String × List Nat)), (gs.map Prod.fst).Nodup →
      ∀ g ∈ gs, entryOf gs g.1 = g.2 := by
  intro gs
  induction gs with
  | nil => intro _ g hg; cases hg
  | cons p gs ih =>
    intro hnd g hg
    obtain ⟨d, v⟩ := p
    simp only [List.map_cons, List.nodup_cons] at hnd
    cases hg with
    | head => simp [entryOf]
    | tail _ hg' =>
      have hne : ¬(d = g.1) := by
        intro he
        exact hnd.1 (he ▸ List.mem_map_of_mem Prod.fst hg')
      simp only [entryOf, if_neg hne]
      exact ih hnd.2 g hg'

/-! ### The enrichment loop under a non-raising oracle -/

theorem fetch_weather_cases (oracle : String → HttpOutcome) (dt : String)
    (h : noRaise (oracle dt) = true) :
    (∃ b, oracle dt = HttpOutcome.ok b ∧ firstDaily b = none ∧
       fetch_weather_for_date oracle dt = Except.ok none) ∨
    (∃ b r, oracle dt = HttpOutcome.ok b ∧
       fetch_weather_for_date oracle dt = Except.ok (some r)) := by
  cases hb : oracle dt with
  | netError => rw [hb] at h; exact Bool.noConfusion h
  | httpError => rw [hb] at h; exact Bool.noConfusion h
  | jsonError => rw [hb] at h; exact Bool.noConfusion h
  | ok body =>
    cases hf : firstDaily body with
    | none =>
      left
      exact ⟨body, rfl, hf, by simp [fetch_weather_for_date, hb, hf]⟩
    | some tri =>
      obtain ⟨tmax, tmin, code⟩ := tri
      right
      exact ⟨body, ⟨tmax, tmin, code, weather_text_from_code code, body⟩, rfl,
        by simp [fetch_weather_for_date, hb, hf]⟩

theorem enrichLoop_ok (oracle : String → HttpOutcome)
    (h : ∀ dt, noRaise (oracle dt) = true) :
    ∀ (gs : List (String × List Nat)) (f : List String) (o : List ObsRow),
      enrichLoop oracle gs f o =
        Except.ok (f ++ expectedFetches gs, o ++ expectedObs oracle gs) := by
  intro gs
  induction gs with
  | nil => intro f o; simp [enrichLoop, expectedFetches, expectedObs]
  | cons g gs ih =>
    intro f o
    obtain ⟨d, ids⟩ := g
    cases hfd : format_date d with
    | none =>
      simp only [enrichLoop, expectedFetches, expectedObs, hfd]
      exact ih f o
    | some fd =>
      rcases fetch_weather_cases oracle fd (h fd) with ⟨b, -, -, hfw⟩ | ⟨b, r, -, hfw⟩
      · simp only [enrichLoop, expectedFetches, expectedObs, hfd, hfw]
        rw [ih (f ++ [fd]) o]
        simp [List.append_assoc]
      · simp only [enrichLoop, expectedFetches, expectedObs, hfd, hfw]
        rw [ih (f ++ [fd]) (o ++ ids.map (mkObsRow fd r))]
        simp [List.append_assoc]

theorem expectedObs_mem (oracle : String → HttpOutcome) :
    ∀ (gs : List (String × List Nat)) (row : ObsRow),
      row ∈ expectedObs oracle gs →
      ∃ w, fetch_weather_for_date oracle row.date = Except.ok (some w) := by
  intro gs
  induction gs with
  | nil => intro row hrow; cases hrow
  | cons g gs ih =>
    intro row hrow
    obtain ⟨d, ids⟩ := g
    cases hfd : format_date d with
    | none =>
      simp only [expectedObs, hfd] at hrow
      exact ih row hrow
    | some fd =>
      cases hfw : fetch_weather_for_date oracle fd with
      | error e =>
        simp only [expectedObs, hfd, hfw] at hrow
        exact ih row hrow
      | ok op =>
        cases op with
        | none =>
          simp only [expectedObs, hfd, hfw] at hrow
          exact ih row hrow
        | some r =>
          simp only [expectedObs, hfd, hfw, List.mem_append] at hrow
          cases hrow with
          | inl hmem =>
            obtain ⟨eid, -, heq⟩ := List.mem_map.mp hmem
            refine ⟨r, ?_⟩
            rw [← heq]
            exact hfw
          | inr hmem => exact ih row hmem

theorem expectedObs_date_mem (oracle : String → HttpOutcome) :
    ∀ (gs : List (String × List Nat)),
      (∀ g ∈ gs, format_date g.1 = some g.1) →
      ∀ row ∈ expectedObs oracle gs, row.date ∈ gs.map Prod.fst := by
  intro gs
  induction gs with
  | nil => intro _ row hrow; cases hrow
  | cons g gs ih =>
    intro hfmt row hrow
    obtain ⟨d, ids⟩ := g
    have hfd : format_date d = some d := hfmt (d, ids) (List.mem_cons_self _ _)
    have htail : ∀ g ∈ gs, format_date g.1 = some g.1 :=
      fun g hg => hfmt g (List.mem_cons_of_mem _ hg)
    cases hfw : fetch_weather_for_date oracle d with
    | error e =>
      simp only [expectedObs, hfd, hfw] at hrow
      exact List.mem_cons_of_mem _ (ih htail row hrow)
    | ok op =>
      cases op with
      | none =>
        simp only [expectedObs, hfd, hfw] at hrow
        exact List.mem_cons_of_mem _ (ih htail row hrow)
      | some r =>
        simp only [expectedObs, hfd, hfw, List.mem_append] at hrow
        cases hrow with
        | inl hmem =>
          obtain ⟨eid, -, heq⟩ := List.mem_map.mp hmem
          rw [← heq]
          exact List.mem_cons_self _ _
        | inr hmem =>
          exact List.mem_cons_of_mem _ (ih htail row hmem)

theorem filter_map_mkObs (d : String) (w : WeatherResult) (ids : List Nat) :
    (ids.map (mkObsRow d w)).filter (fun row => decide (row.date = d)) =
      ids.map (mkObsRow d w) :=
  List.filter_eq_self.mpr fun row hrow => by
    obtain ⟨i, -, hi⟩ := List.mem_map.mp hrow
    rw [← hi]
    exact decide_eq_true rfl

theorem filter_map_mkObs_ne (d k : String) (hne : ¬(d = k)) (w : WeatherResult)
    (ids : List Nat) :
    (ids.map (mkObsRow d w)).filter (fun row => decide (row.date = k)) = [] :=
  List.filter_eq_nil_iff.mpr fun row hrow => by
    obtain ⟨i, -, hi⟩ := List.mem_map.mp hrow
    rw [← hi]
    simp [mkObsRow, hne]

theorem expectedObs_filter (oracle : String → HttpOutcome) :
    ∀ (gs : List (String × List Nat)),
      (gs.map Prod.fst).Nodup →
      (∀ g ∈ gs, format_date g.1 = some g.1) →
      ∀ g ∈ gs, ∀ w, fetch_weather_for_date oracle g.1 = Except.ok (some w) →
        (expectedObs oracle gs).filter (fun row => decide (row.date = g.1)) =
          g.2.map (mkObsRow g.1 w) := by
  intro gs
  induction gs with
  | nil => intro _ _ g hg; cases hg
  | cons g0 gs ih =>
    intro hnd hfmt g hg w hw
    obtain ⟨d0, ids0⟩ := g0
    have hfd0 : format_date d0 = some d0 := hfmt (d0, ids0) (List.mem_cons_self _ _)
    have htail : ∀ g ∈ gs, format_date g.1 = some g.1 :=
      fun g hg => hfmt g (List.mem_cons_of_mem _ hg)
    simp only [List.map_cons, List.nodup_cons] at hnd
    cases hg with
    | head =>
      have hw' : fetch_weather_for_date oracle d0 = Except.ok (some w) := hw
      show (expectedObs oracle ((d0, ids0) :: gs)).filter
          (fun row => decide (row.date = d0)) = ids0.map (mkObsRow d0 w)
      simp only [expectedObs, hfd0, hw', List.filter_append]
      rw [filter_map_mkObs]
      have hnil : (expectedObs oracle gs).filter
          (fun row => decide (row.date = d0)) = [] := by
        apply List.filter_eq_nil_iff.mpr
        intro row hrow
        have hmem := expectedObs_date_mem oracle gs htail row hrow
        simp only [decide_eq_true_eq]
        intro he
        exact hnd.1 (he ▸ hmem)
      rw [hnil, List.append_nil]
    | tail _ hg' =>
      have hgk : g.1 ∈ gs.map Prod.fst := List.mem_map_of_mem Prod.fst hg'
      have hne : ¬(d0 = g.1) := fun he => hnd.1 (he ▸ hgk)
      cases hfw0 : fetch_weather_for_date oracle d0 with
      | error e =>
        simp only [expectedObs, hfd0, hfw0]
        exact ih hnd.2 htail g hg' w hw
      | ok op =>
        cases op with
        | none =>
          simp only [expectedObs, hfd0, hfw0]
          exact ih hnd.2 htail g hg' w hw
        | some r0 =>
          simp only [expectedObs, hfd0, hfw0, List.filter_append]
          rw [filter_map_mkObs_ne d0 g.1 hne, List.nil_append]
          exact ih hnd.2 htail g hg' w hw

theorem expectedFetches_eq :
    ∀ (gs : List (String × List Nat)),
      (∀ g ∈ gs, format_date g.1 = some g.1) →
      expectedFetches gs = gs.map Prod.fst := by
  intro gs
  induction gs with
  | nil => intro _; rfl
  | cons g gs ih =>
    intro h
    obtain ⟨d, ids⟩ := g
    have hfd : format_date d = some d := h (d, ids) (List.mem_cons_self _ _)
    simp only [expectedFetches, hfd, List.map_cons]
    rw [ih fun g hg => h g (List.mem_cons_of_mem _ hg)]

/-- Claim C1 counterexample: the claim states that a network failure
(or non-2xx response, or timeout) during one date's forecast fetch is
caught and the run completes without raising to its caller even when
every fetch fails.  But in the source `requests.get`,
`resp.raise_for_status()` and `resp.json()` are all *outside* the
`try` block of `fetch_weather_for_date`, and the call site in
`fetch_and_store_for_events` is not guarded either, so a network
failure on the single date aborts the whole run with an uncaught
exception. -/
theorem c1_counterexample :
    fetch_and_store_for_events netFailOracle [(1, "2025-12-02")] = Except.error () := by
  rfl

/-- Claim C1 amended: only a fetch failure in which the provider
returns a parseable (2xx, JSON) response *missing the expected fields*
is caught and logged; such a date contributes zero observations and
processing continues with the remaining distinct dates, and the run
completes without raising even when every fetch fails in this way.  A
network failure, timeout, non-2xx response or non-JSON body instead
propagates to the caller and aborts the run (see the counterexample).
Here: under an oracle that never raises, the run returns normally, its
observations are exactly the fan-out of the fully populated dates, and
every inserted observation stems from a date whose fetch succeeded
with all expected fields. -/
theorem c1_fetch_failure_isolation_amended (events : List (Nat × String))
    (oracle : String → HttpOutcome) (h : ∀ dt, noRaise (oracle dt) = true) :
    ∃ r, fetch_and_store_for_events oracle events = Except.ok r ∧
      r.fetched =
        expectedFetches (groupByDate (events.filter fun e => decide (e.2 ≠ ""))) ∧
      r.observations =
        expectedObs oracle (groupByDate (events.filter fun e => decide (e.2 ≠ ""))) ∧
      ∀ row ∈ r.observations,
        ∃ w, fetch_weather_for_date oracle row.date = Except.ok (some w) := by
  by_cases hE : (events.filter fun e => decide (e.2 ≠ "")).isEmpty
  · refine ⟨⟨[], [], none, none⟩, ?_, ?_, ?_, ?_⟩
    · simp only [fetch_and_store_for_events]
      rw [if_pos hE]
    · rw [List.isEmpty_iff.mp hE]
      rfl
    · rw [List.isEmpty_iff.mp hE]
      rfl
    · intro row hrow
      cases hrow
  · refine ⟨⟨expectedFetches (groupByDate (events.filter fun e => decide (e.2 ≠ ""))),
      expectedObs oracle (groupByDate (events.filter fun e => decide (e.2 ≠ ""))),
      some (expectedObs oracle
        (groupByDate (events.filter fun e => decide (e.2 ≠ "")))).length,
      none⟩, ?_, rfl, rfl, ?_⟩
    · simp only [fetch_and_store_for_events]
      rw [if_neg hE, enrichLoop_ok oracle h _ [] []]
      simp
    · exact fun row hrow => expectedObs_mem oracle _ row hrow

/-- Witness for the amended C1 at a concrete mixed run: the fetch for
2025-12-02 succeeds with a body missing the expected fields (caught,
zero observations), the fetch for 2025-12-03 succeeds fully, and the
run completes; only event 2 (on the good date) is enriched. -/
theorem c1_fetch_failure_isolation_amended_witness :
    (∃ r, fetch_and_store_for_events mixedOracle
          [(1, "2025-12-02"), (2, "2025-12-03")] = Except.ok r ∧
        r.fetched = expectedFetches (groupByDate
          ([(1, "2025-12-02"), (2, "2025-12-03")].filter fun e => decide (e.2 ≠ ""))) ∧
        r.observations = expectedObs mixedOracle (groupByDate
          ([(1, "2025-12-02"), (2, "2025-12-03")].filter fun e => decide (e.2 ≠ ""))) ∧
        ∀ row ∈ r.observations,
          ∃ w, fetch_weather_for_date mixedOracle row.date = Except.ok (some w)) ∧
    (expectedObs mixedOracle (groupByDate
        ([(1, "2025-12-02"), (2, "2025-12-03")].filter fun e =>
          decide (e.2 ≠ "")))).map ObsRow.event_id = [2] := by
  constructor
  · exact c1_fetch_failure_isolation_amended [(1, "2025-12-02"), (2, "2025-12-03")]
      mixedOracle (fun dt => by simp only [mixedOracle]; split <;> rfl)
  · rfl

/-- Claim C7 counterexample: the claim states that every invocation of
the enrichment returns the total count of observation rows written.
The source function tracks and prints that count but has no `return`
statement carrying it: both its exit paths return `None`.  On a run
that writes one row, the returned value is `None`, not 1. -/
theorem c7_counterexample :
    fetch_and_store_for_events clearSkyOracle [(1, "2025-12-02")] =
      Except.ok ⟨["2025-12-02"], [mkObsRow "2025-12-02" clearSkyResult 1],
        some 1, none⟩ ∧
    (⟨["2025-12-02"], [mkObsRow "2025-12-02" clearSkyResult 1], some 1, none⟩ :
        RunResult).returned ≠
      some (⟨["2025-12-02"], [mkObsRow "2025-12-02" clearSkyResult 1], some 1, none⟩ :
        RunResult).observations.length := by
  exact ⟨by rfl, by simp⟩

/-- Claim C7 amended: the enrichment computes the total count of
observation rows written and reports it only through the final printed
diagnostic; the function's return value is `None` on every path (the
early "no event dates" return prints no count). -/
theorem c7_amended_returns_none (oracle : String → HttpOutcome)
    (events : List (Nat × String)) (r : RunResult)
    (h : fetch_and_store_for_events oracle events = Except.ok r) :
    r.returned = none ∧
    ((events.filter fun e => decide (e.2 ≠ "")) ≠ [] →
      r.printedCount = some r.observations.length) := by
  simp only [fetch_and_store_for_events] at h
  split at h
  · rename_i hE
    simp only [Except.ok.injEq] at h
    subst h
    exact ⟨rfl, fun habs => absurd (List.isEmpty_iff.mp hE) habs⟩
  · split at h
    · exact Except.noConfusion h
    · rename_i f o heq
      simp only [Except.ok.injEq] at h
      subst h
      exact ⟨rfl, fun _ => rfl⟩

/-- Witness for the amended C7 at a concrete run writing one row: the
return value is `None` while the printed count equals the one row
written. -/
theorem c7_amended_returns_none_witness :
    (⟨["2025-12-02"], [mkObsRow "2025-12-02" clearSkyResult 1], some 1, none⟩ :
      RunResult).returned = none ∧
    (([(1, "2025-12-02")].filter fun e : Nat × String => decide (e.2 ≠ "")) ≠ [] →
      (⟨["2025-12-02"], [mkObsRow "2025-12-02" clearSkyResult 1], some 1, none⟩ :
        RunResult).printedCount =
      some (⟨["2025-12-02"], [mkObsRow "2025-12-02" clearSkyResult 1], some 1, none⟩ :
        RunResult).observations.length) :=
  c7_amended_returns_none clearSkyOracle [(1, "2025-12-02")] _ (by rfl)

/-- Claim C2: for every set of stored events with non-empty (valid ISO,
per the store invariant) dates and distinct ids, under an oracle whose
every fetch succeeds with a fully populated body, the enrichment issues
exactly one outbound forecast fetch per distinct date — the fetched
list is exactly the distinct dates in first-occurrence order — and for
each date inserts exactly one observation per event id grouped under
that date, all rows carrying the same fetched weather fields and
distinct `event_id`; in particular 3 events sharing one date yield 1
fetch and 3 observations. -/
theorem c2_one_fetch_per_date_fanout :
    (∀ (events : List (Nat × String)) (oracle : String → HttpOutcome),
      (∀ e ∈ events, isValidYMD e.2 = true) →
      (∀ dt, ∃ b, oracle dt = HttpOutcome.ok b ∧ (firstDaily b).isSome = true) →
      (events.map Prod.fst).Nodup →
      ∃ r, fetch_and_store_for_events oracle events = Except.ok r ∧
        r.fetched = (groupByDate events).map Prod.fst ∧
        r.fetched.Nodup ∧
        (∀ dt, dt ∈ r.fetched ↔ dt ∈ events.map Prod.snd) ∧
        (∀ g ∈ groupByDate events, ∃ w,
          fetch_weather_for_date oracle g.1 = Except.ok (some w) ∧
          r.observations.filter (fun row => decide (row.date = g.1)) =
            g.2.map (mkObsRow g.1 w) ∧
          (g.2.map (mkObsRow g.1 w)).map ObsRow.event_id = g.2 ∧
          g.2.Nodup)) ∧
    fetch_and_store_for_events clearSkyOracle
        [(1, "2025-12-02"), (2, "2025-12-02"), (3, "2025-12-02")] =
      Except.ok ⟨["2025-12-02"],
        [mkObsRow "2025-12-02" clearSkyResult 1, mkObsRow "2025-12-02" clearSkyResult 2,
         mkObsRow "2025-12-02" clearSkyResult 3], some 3, none⟩ := by
  constructor
  · intro events oracle hvalid hok hids
    have hnr : ∀ dt, noRaise (oracle dt) = true := by
      intro dt
      obtain ⟨b, hb, -⟩ := hok dt
      rw [hb]
      rfl
    have hfe : events.filter (fun e => decide (e.2 ≠ "")) = events :=
      List.filter_eq_self.mpr fun e he =>
        decide_eq_true (isValidYMD_ne_empty e.2 (hvalid e he))
    have hkeys_mem := groupByDate_keys_mem events
    have hkeys_nodup := groupByDate_keys_nodup events
    have hfmt : ∀ g ∈ groupByDate events, format_date g.1 = some g.1 := by
      intro g hg
      have hmem : g.1 ∈ events.map Prod.snd :=
        (hkeys_mem g.1).mp (List.mem_map_of_mem Prod.fst hg)
      obtain ⟨e, he, heq⟩ := List.mem_map.mp hmem
      refine format_date_valid g.1 ?_
      rw [← heq]
      exact hvalid e he
    have hfetch : ∀ g ∈ groupByDate events,
        ∃ w, fetch_weather_for_date oracle g.1 = Except.ok (some w) := by
      intro g hg
      obtain ⟨b, hb, hsome⟩ := hok g.1
      obtain ⟨⟨tmax, tmin, code⟩, htri⟩ := Option.isSome_iff_exists.mp hsome
      exact ⟨⟨tmax, tmin, code, weather_text_from_code code, b⟩,
        by simp [fetch_weather_for_date, hb, htri]⟩
    by_cases hE : events = []
    · subst hE
      refine ⟨⟨[], [], none, none⟩, by rfl, rfl, List.nodup_nil, by simp, ?_⟩
      intro g hg
      cases hg
    · have hEne : ¬(events.isEmpty = true) := by
        intro habs
        exact hE (List.isEmpty_iff.mp habs)
      refine ⟨⟨expectedFetches (groupByDate events),
        expectedObs oracle (groupByDate events),
        some (expectedObs oracle (groupByDate events)).length, none⟩, ?_, ?_, ?_, ?_, ?_⟩
      · simp only [fetch_and_store_for_events]
        rw [hfe, if_neg hEne, enrichLoop_ok oracle hnr _ [] []]
        simp
      · exact expectedFetches_eq _ hfmt
      · show (expectedFetches (groupByDate events)).Nodup
        rw [expectedFetches_eq _ hfmt]
        exact hkeys_nodup
      · intro dt
        show dt ∈ expectedFetches (groupByDate events) ↔ _
        rw [expectedFetches_eq _ hfmt]
        exact hkeys_mem dt
      · intro g hg
        obtain ⟨w, hw⟩ := hfetch g hg
        refine ⟨w, hw, ?_, ?_, ?_⟩
        · exact expectedObs_filter oracle _ hkeys_nodup hfmt g hg w hw
        · rw [List.map_map]
          have hcomp : ObsRow.event_id ∘ mkObsRow g.1 w = id := funext fun i => rfl
          rw [hcomp, List.map_id]
        · have hent := mem_entryOf _ hkeys_nodup g hg
          have hcontent : g.2 =
              (events.filter (fun e => decide (e.2 = g.1))).map Prod.fst := by
            rw [← hent, groupByDate_entry]
          rw [hcontent]
          exact hids.sublist ((List.filter_sublist events).map Prod.fst)
  · rfl

/-- Witness for C2: the universally quantified part applied at the
concrete 3-events-one-date run under the clear-sky oracle. -/
theorem c2_one_fetch_per_date_fanout_witness :
    ∃ r, fetch_and_store_for_events clearSkyOracle
        [(1, "2025-12-02"), (2, "2025-12-02"), (3, "2025-12-02")] = Except.ok r ∧
      r.fetched = (groupByDate
        [(1, "2025-12-02"), (2, "2025-12-02"), (3, "2025-12-02")]).map Prod.fst ∧
      r.fetched.Nodup ∧
      (∀ dt, dt ∈ r.fetched ↔
        dt ∈ [(1, "2025-12-02"), (2, "2025-12-02"), (3, "2025-12-02")].map Prod.snd) ∧
      (∀ g ∈ groupByDate [(1, "2025-12-02"), (2, "2025-12-02"), (3, "2025-12-02")],
        ∃ w, fetch_weather_for_date clearSkyOracle g.1 = Except.ok (some w) ∧
          r.observations.filter (fun row => decide (row.date = g.1)) =
            g.2.map (mkObsRow g.1 w) ∧
          (g.2.map (mkObsRow g.1 w)).map ObsRow.event_id = g.2 ∧
          g.2.Nodup) :=
  c2_one_fetch_per_date_fanout.1
    [(1, "2025-12-02"), (2, "2025-12-02"), (3, "2025-12-02")] clearSkyOracle
    (by decide) (fun dt => ⟨⟨some ⟨[20], [5], [0]⟩⟩, rfl, rfl⟩) (by decide)

end BACEvents
